import Mathlib

/-!
# Verification of the retroshade core (state reconstruction, rewind, binary
substitution, snapshot layering and value conversion)

Shallow embedding of `src/retroshade/src/{state,snapshot,conversion,lib}.rs`.
Machine integers are modelled as `Nat`/`Int`; byte strings and hashes as
`Nat`/`List Nat` identities (only compared for equality by the code under
study); external library functions (serde_json, stellar-strkey, hex) are
modelled as explicit function parameters since the code only pipes their
output through.
-/

namespace Retroshade

/-- The 32-byte object identity (contract id / wasm hash), opaque to the code. -/
abbrev Hash := Nat

/-- The `ScAddress`: either an ed25519 account key or a contract id
(`xdr::ScAddress`). -/
inductive ScAddress where
  | account (id : Nat)
  | contract (id : Hash)
  deriving DecidableEq, Repr

/-- The `xdr::ScVal`, the dynamic contract value union.  128/256-bit integers are
carried as their 64-bit limbs exactly as in `Int128Parts`/`Int256Parts`
(signed outermost limb as `Int`, unsigned limbs as `Nat`).  `vec` and `map`
carry `Option` payloads as in the XDR (`Vec(Option<ScVec>)`).  The three
variants the conversion treats as unrecognized (`ContractInstance`,
`LedgerKeyContractInstance`, `LedgerKeyNonce`) are present so the catch-all
arm is real. -/
inductive ScVal where
  | bool (b : Bool)
  | void
  | error (e : Nat)
  | u32 (n : Nat)
  | i32 (n : Int)
  | u64 (n : Nat)
  | i64 (n : Int)
  | timepoint (n : Nat)
  | duration (n : Nat)
  | u128 (hi lo : Nat)
  | i128 (hi : Int) (lo : Nat)
  | u256 (hihi hilo lohi lolo : Nat)
  | i256 (hihi : Int) (hilo lohi lolo : Nat)
  | bytes (b : List Nat)
  | str (s : String)
  | symbol (s : String)
  | vec (v : Option (List ScVal))
  | map (m : Option (List (ScVal × ScVal)))
  | address (a : ScAddress)
  | contractInstance (executable : Option Hash) (storage : Option (List (ScVal × ScVal)))
  | ledgerKeyContractInstance
  | ledgerKeyNonce (n : Int)
  deriving Repr

/- Structural equality on `ScVal` (the behaviour of Rust's derived
`PartialEq`), written by hand because automatic derivation does not support
the nested `List ScVal` payloads. -/
mutual

/-- Structural equality on `ScVal` (Rust's derived `PartialEq`). -/
def ScVal.beq : ScVal → ScVal → Bool
  | .bool a, .bool b => a == b
  | .void, .void => true
  | .error a, .error b => a == b
  | .u32 a, .u32 b => a == b
  | .i32 a, .i32 b => a == b
  | .u64 a, .u64 b => a == b
  | .i64 a, .i64 b => a == b
  | .timepoint a, .timepoint b => a == b
  | .duration a, .duration b => a == b
  | .u128 a b, .u128 a' b' => a == a' && b == b'
  | .i128 a b, .i128 a' b' => a == a' && b == b'
  | .u256 a b c d, .u256 a' b' c' d' => a == a' && b == b' && c == c' && d == d'
  | .i256 a b c d, .i256 a' b' c' d' => a == a' && b == b' && c == c' && d == d'
  | .bytes a, .bytes b => a == b
  | .str a, .str b => a == b
  | .symbol a, .symbol b => a == b
  | .vec none, .vec none => true
  | .vec (some l), .vec (some m) => ScVal.beqList l m
  | .map none, .map none => true
  | .map (some l), .map (some m) => ScVal.beqPairs l m
  | .address a, .address b => a == b
  | .contractInstance e none, .contractInstance e' none => e == e'
  | .contractInstance e (some s), .contractInstance e' (some s') =>
      e == e' && ScVal.beqPairs s s'
  | .ledgerKeyContractInstance, .ledgerKeyContractInstance => true
  | .ledgerKeyNonce a, .ledgerKeyNonce b => a == b
  | _, _ => false

def ScVal.beqList : List ScVal → List ScVal → Bool
  | [], [] => true
  | a :: as, b :: bs => ScVal.beq a b && ScVal.beqList as bs
  | _, _ => false

def ScVal.beqPairs : List (ScVal × ScVal) → List (ScVal × ScVal) → Bool
  | [], [] => true
  | (k, v) :: as, (k', v') :: bs =>
      ScVal.beq k k' && ScVal.beq v v' && ScVal.beqPairs as bs
  | _, _ => false

end

/-! ## Conversion pipeline (`conversion.rs`) -/

/-- The postgres column types the conversion produces
(`postgres_types::Type`, restricted to the constants the module uses). -/
inductive PgType where
  | BOOL
  | TEXT
  | NUMERIC
  | BYTEA
  | JSON
  | BOOL_ARRAY
  | NUMERIC_ARRAY
  | TEXT_ARRAY
  deriving DecidableEq, Repr

mutual

/-- The `conversion::TypeKind`. -/
inductive TypeKind where
  | genericArray (arr : List FromScVal)
  | text (s : String)
  | boolean (b : Bool)
  | void
  | numeric (s : String)
  deriving Repr

/-- The `conversion::FromScVal`: a converted value, `{ dbtype, kind }`. -/
inductive FromScVal where
  | mk (dbtype : PgType) (kind : TypeKind)
  deriving Repr

end

/-- Projection: the `dbtype` field of `FromScVal`. -/
def FromScVal.dbtype : FromScVal → PgType
  | .mk t _ => t

/-- Projection: the `kind` field of `FromScVal`. -/
def FromScVal.kind : FromScVal → TypeKind
  | .mk _ k => k

/-- The `conversion::MAX_ALLOWED_RECURSION_DEPTH`. -/
def MAX_ALLOWED_RECURSION_DEPTH : Nat := 1

/-- The `i128_to_bigint`: `(BigInt::from(hi) << 64) | BigInt::from(lo)`, on the
mathematical integers (num-bigint's shift and or have the usual
infinite-two's-complement semantics, which is what `Int.shiftLeft` /
`Int.lor` implement). -/
def i128_to_bigint (hi : Int) (lo : Nat) : Int :=
  Int.lor (hi <<< (64 : Int)) (lo : Int)

/-- The `u128_to_bigint`. -/
def u128_to_bigint (hi lo : Nat) : Int :=
  Int.lor ((hi : Int) <<< (64 : Int)) (lo : Int)

/-- The `i256_to_bigint`: compose four 64-bit limbs, signed outermost limb. -/
def i256_to_bigint (hihi : Int) (hilo lohi lolo : Nat) : Int :=
  let hi := Int.lor (hihi <<< (64 : Int)) (hilo : Int)
  let lo := Int.lor ((lohi : Int) <<< (64 : Int)) (lolo : Int)
  Int.lor (hi <<< (128 : Int)) lo

/-- The `u256_to_bigint`. -/
def u256_to_bigint (hihi hilo lohi lolo : Nat) : Int :=
  let hi := Int.lor ((hihi : Int) <<< (64 : Int)) (hilo : Int)
  let lo := Int.lor ((lohi : Int) <<< (64 : Int)) (lolo : Int)
  Int.lor (hi <<< (128 : Int)) lo

/-- One decimal digit rendered as a character (total; inputs are always
`< 10` where it is used). -/
def digitChar (d : Nat) : Char :=
  match d with
  | 0 => '0' | 1 => '1' | 2 => '2' | 3 => '3' | 4 => '4'
  | 5 => '5' | 6 => '6' | 7 => '7' | 8 => '8' | 9 => '9'
  | _ => '*'

/-- Inverse of `digitChar` on decimal digit characters. -/
def charDigit (c : Char) : Nat :=
  match c with
  | '0' => 0 | '1' => 1 | '2' => 2 | '3' => 3 | '4' => 4
  | '5' => 5 | '6' => 6 | '7' => 7 | '8' => 8 | '9' => 9
  | _ => 0

/-- Base-10 rendering of a natural number (the behaviour of `Display` on
unsigned big integers): most-significant digit first, no leading zeros,
`"0"` for zero. -/
def natDecString (n : Nat) : String :=
  if n = 0 then "0" else String.mk (((Nat.digits 10 n).map digitChar).reverse)

/-- Base-10 rendering of an integer (`num_bigint::BigInt::to_string`):
a leading `-` exactly for negative values. -/
def intDecString (z : Int) : String :=
  if z < 0 then "-" ++ natDecString z.natAbs else natDecString z.natAbs

/-- Parse a decimal digit string back to a natural number (used to state
losslessness of `natDecString`). -/
def natOfDecString (s : String) : Nat :=
  Nat.ofDigits 10 ((s.data.map charDigit).reverse)

/-- Parse an optionally `-`-signed decimal string back to an integer. -/
def intOfDecString (s : String) : Int :=
  match s.data with
  | c :: rest =>
      if c = '-' then -(natOfDecString (String.mk rest) : Int)
      else (natOfDecString s : Int)
  | [] => (natOfDecString s : Int)

/-- The `num_to_string`: renders 128/256-bit limb values in base 10; every other
variant hits `panic!()`, modelled as `none`. -/
def num_to_string : ScVal → Option String
  | .i256 a b c d => some (intDecString (i256_to_bigint a b c d))
  | .u256 a b c d => some (intDecString (u256_to_bigint a b c d))
  | .i128 a b => some (intDecString (i128_to_bigint a b))
  | .u128 a b => some (intDecString (u128_to_bigint a b))
  | _ => none

/-- The external string-producing collaborators the conversion pipeline pipes
through verbatim: `serde_json::to_string` on vectors, maps and error values,
`hex::encode` on byte strings, and `stellar_strkey` address rendering.  The
code under study never inspects their output, so they are modelled as
opaque function parameters. -/
structure Ser where
  vecJson : Option (List ScVal) → String
  mapJson : Option (List (ScVal × ScVal)) → String
  errJson : Nat → String
  hexBytes : List Nat → String
  accountStr : Nat → String
  contractStr : Hash → String

mutual

/-- The `FromScVal::from_scval(value, recursion_depth)`.  The Rust function
threads `recursion_depth` as `&mut usize`; here it is passed in and the
updated value returned.  The `panic!()` inside `num_to_string` is modelled
by propagating `none`. -/
def from_scval (ser : Ser) : ScVal → Nat → Option (FromScVal × Nat)
  | .bool b, d => some (.mk .BOOL (.boolean b), d)
  | .void, d => some (.mk .TEXT .void, d)
  | .u32 n, d => some (.mk .NUMERIC (.numeric (natDecString n)), d)
  | .i32 n, d => some (.mk .NUMERIC (.numeric (intDecString n)), d)
  | .u64 n, d => some (.mk .NUMERIC (.numeric (natDecString n)), d)
  | .i64 n, d => some (.mk .NUMERIC (.numeric (intDecString n)), d)
  | .timepoint t, d => some (.mk .NUMERIC (.numeric (natDecString t)), d)
  | .duration t, d => some (.mk .NUMERIC (.numeric (natDecString t)), d)
  | .u256 a b c e, d =>
      (num_to_string (.u256 a b c e)).map (fun s => (.mk .NUMERIC (.numeric s), d))
  | .i256 a b c e, d =>
      (num_to_string (.i256 a b c e)).map (fun s => (.mk .NUMERIC (.numeric s), d))
  | .bytes b, d => some (.mk .BYTEA (.text (ser.hexBytes b)), d)
  | .str s, d => some (.mk .TEXT (.text s), d)
  | .symbol s, d => some (.mk .TEXT (.text s), d)
  | .vec v, d =>
      let d1 := d + 1
      if d1 ≤ MAX_ALLOWED_RECURSION_DEPTH then
        match v with
        | some vecm =>
            match from_scval_list ser vecm d1 with
            | none => none
            | some (inner, d2) =>
              match inner.head? with
              | some first =>
                  if inner.all (fun item => item.dbtype = first.dbtype) then
                    let dbtype := match first.kind with
                      | .boolean _ => PgType.BOOL_ARRAY
                      | .numeric _ => PgType.NUMERIC_ARRAY
                      | .text _ => PgType.TEXT_ARRAY
                      | _ => PgType.JSON
                    if dbtype ≠ PgType.JSON then
                      some (.mk dbtype (.genericArray inner), d2)
                    else
                      some (.mk .JSON (.text (ser.vecJson v)), d2)
                  else
                    some (.mk .JSON (.text (ser.vecJson v)), d2)
              | none => some (.mk .JSON (.text (ser.vecJson v)), d2)
        | none => some (.mk .JSON (.text (ser.vecJson v)), d1)
      else
        some (.mk .JSON (.text (ser.vecJson v)), d1)
  | .map m, d => some (.mk .JSON (.text (ser.mapJson m)), d)
  | .error e, d => some (.mk .TEXT (.text (ser.errJson e)), d)
  | .address a, d =>
      let address := match a with
        | .account id => ser.accountStr id
        | .contract id => ser.contractStr id
      some (.mk .TEXT (.text address), d)
  | .i128 a b, d =>
      (num_to_string (.i128 a b)).map (fun s => (.mk .NUMERIC (.numeric s), d))
  | .u128 a b, d =>
      (num_to_string (.u128 a b)).map (fun s => (.mk .NUMERIC (.numeric s), d))
  | .contractInstance _ _, d => some (.mk .TEXT (.text "Invalid"), d)
  | .ledgerKeyContractInstance, d => some (.mk .TEXT (.text "Invalid"), d)
  | .ledgerKeyNonce _, d => some (.mk .TEXT (.text "Invalid"), d)

/-- The sequential element-by-element conversion of a vector's elements,
threading the shared mutable `recursion_depth` left to right. -/
def from_scval_list (ser : Ser) : List ScVal → Nat → Option (List FromScVal × Nat)
  | [], d => some ([], d)
  | x :: xs, d =>
      match from_scval ser x d with
      | none => none
      | some (fx, d1) =>
        match from_scval_list ser xs d1 with
        | none => none
        | some (rest, d2) => some (fx :: rest, d2)

end

/-! ## Ledger entry model (`xdr` entity shapes used by `state.rs` /
`snapshot.rs`; payload fields the code never reads are represented by a
single extra field so that "full value" replacement is observable) -/

/-- Contract-data durability class. -/
inductive Durability where
  | temporary
  | persistent
  deriving DecidableEq, Repr

/-- The `AccountEntry` (identity plus opaque rest-of-payload). -/
structure AccountEntry where
  account_id : Nat
  balance : Nat
  deriving DecidableEq, Repr

/-- The `TrustLineEntry` (identity fields plus opaque rest-of-payload). -/
structure TrustlineEntry where
  asset : Nat
  account_id : Nat
  balance : Nat
  deriving DecidableEq, Repr

/-- The `ContractDataEntry`. -/
structure ContractDataEntry where
  contract : ScAddress
  key : ScVal
  durability : Durability
  val : ScVal
  deriving Repr

/-- The `ContractCodeEntry`. -/
structure ContractCodeEntry where
  hash : Hash
  code : List Nat
  deriving DecidableEq, Repr

/-- The `LedgerEntryData`: the entry variants the code distinguishes, plus a
catch-all for the many variants it always ignores. -/
inductive LedgerEntryData where
  | account (a : AccountEntry)
  | trustline (t : TrustlineEntry)
  | contractData (d : ContractDataEntry)
  | contractCode (c : ContractCodeEntry)
  | other (n : Nat)
  deriving Repr

/-- The `LedgerEntry`: sequence-number field plus payload. -/
structure LedgerEntry where
  last_modified_ledger_seq : Nat
  data : LedgerEntryData
  deriving Repr

/-- The `LedgerKey`. -/
inductive LedgerKey where
  | account (account_id : Nat)
  | trustline (asset : Nat) (account_id : Nat)
  | contractData (contract : ScAddress) (key : ScVal) (durability : Durability)
  | contractCode (hash : Hash)
  | other (n : Nat)
  deriving Repr

/-- Structural equality on `LedgerKey` (Rust's derived `PartialEq`). -/
def LedgerKey.beq : LedgerKey → LedgerKey → Bool
  | .account a, .account a' => a == a'
  | .trustline s a, .trustline s' a' => s == s' && a == a'
  | .contractData c k dur, .contractData c' k' dur' =>
      c == c' && ScVal.beq k k' && dur == dur'
  | .contractCode h, .contractCode h' => h == h'
  | .other n, .other n' => n == n'
  | _, _ => false

/-! ## Snapshot source layering (`snapshot.rs`) -/

/-- The `SnapshotSource` capability:
`get(key) -> Result<Option<(entry, live_until)>, HostError>` (host errors
opaque). -/
def SnapshotFn : Type :=
  LedgerKey → Except Nat (Option (LedgerEntry × Option Nat))

/-- The per-variant canonical key derivation used by both closures in
`InternalSnapshot::get` (variants without an addressable key yield `none`,
i.e. the closure returns `false`). -/
def entryKey? (e : LedgerEntry) : Option LedgerKey :=
  match e.data with
  | .account a => some (.account a.account_id)
  | .contractCode c => some (.contractCode c.hash)
  | .contractData d => some (.contractData d.contract d.key d.durability)
  | .trustline t => some (.trustline t.asset t.account_id)
  | .other _ => none

/-- The `key.as_ref() == &entry_key` test performed against a working-set entry. -/
def keyMatchesEntry (key : LedgerKey) (entry : LedgerEntry) : Bool :=
  match entryKey? entry with
  | some ek => LedgerKey.beq key ek
  | none => false

/-- The `snapshot::InternalSnapshot`. -/
structure InternalSnapshot where
  inner_source : SnapshotFn
  target_pre_execution_state : List (LedgerEntry × Option Nat)
  force_remove : List LedgerEntry

/-- The `InternalSnapshot::get`: overrides first, then the force-absent list,
then the backing source. -/
def InternalSnapshot.get (s : InternalSnapshot) (key : LedgerKey) :
    Except Nat (Option (LedgerEntry × Option Nat)) :=
  match s.target_pre_execution_state.find? (fun p => keyMatchesEntry key p.1) with
  | some (entry, lifetime) => .ok (some (entry, lifetime))
  | none =>
      if (s.force_remove.find? (fun e => keyMatchesEntry key e)).isSome then
        .ok none
      else
        s.inner_source key

/-! ## Transaction envelope shapes (`xdr`, as read by
`build_current_state`) -/

/-- The `LedgerFootprint`. -/
structure LedgerFootprint where
  read_only : List LedgerKey
  read_write : List LedgerKey

/-- The `SorobanResources`. -/
structure SorobanResources where
  footprint : LedgerFootprint
  instructions : Nat
  read_bytes : Nat
  write_bytes : Nat

/-- The `TransactionExt`: either no soroban data (`V0`) or the soroban
transaction data, of which only `resources` is read. -/
inductive TransactionExt where
  | v0
  | v1 (resources : SorobanResources)

/-- The `MuxedAccount`. -/
inductive MuxedAccount where
  | ed25519 (key : Nat)
  | muxedEd25519 (id : Nat) (key : Nat)

/-- The `OperationBody`: an invoke-host-function operation (auth entries and the
host function itself are only stored and handed to the external executor, so
they are opaque) or any other operation kind. -/
inductive OperationBody where
  | invokeHostFunction (auth : List Nat) (host_function : Nat)
  | other (n : Nat)

/-- The `Operation`. -/
structure Operation where
  source_account : Option MuxedAccount
  body : OperationBody

/-- The transaction fields read by `build_current_state`. -/
structure Transaction where
  source_account : MuxedAccount
  operations : List Operation
  ext : TransactionExt

/-- The `TransactionV1Envelope` (signatures ignored by the code). -/
structure TransactionV1Envelope where
  tx : Transaction

/-- The `AccountId` derivation from a (possibly multiplexed) source account:
both variants reduce to the inner ed25519 key. -/
def accountIdOfMuxed : MuxedAccount → Nat
  | .ed25519 key => key
  | .muxedEd25519 _ key => key

/-- Operation metadata: the recorded entry-change log of one operation
(`OperationMeta.changes`). -/
inductive LedgerEntryChange where
  | state (e : LedgerEntry)
  | updated (e : LedgerEntry)
  | created (e : LedgerEntry)
  | removed (k : LedgerKey)
  | other (n : Nat)

/-- The `OperationMeta`. -/
structure OperationMeta where
  changes : List LedgerEntryChange

/-- The `TransactionMetaV3` (only the per-operation metas are read). -/
structure TransactionMetaV3 where
  operations : List OperationMeta

/-! ## The replay state (`lib.rs` / `state.rs`) -/

/-- The `RetroshadeError` (per `state.rs`, whose `EntryNotFound` carries the
missing key). -/
inductive RetroshadeError where
  | SVMHost (e : Nat)
  | NotSorobanTx
  | EntryNotFound (key : LedgerKey)
  | MissingContext
  | MalformedXdr
  | MalformedRetroshadeEvent
  deriving Repr

/-- The `RetroshadesExecution`: the replay state.  `ledger_info` is only handed
to the external executor and is omitted. -/
structure RetroshadesExecution where
  target_pre_execution_state : List (LedgerEntry × Option Nat)
  host_function : Option Nat
  auth_entries : List Nat
  resources : Option SorobanResources
  source_account : Option Nat

/-- The `RetroshadesExecution::new`. -/
def RetroshadesExecution.new : RetroshadesExecution :=
  { target_pre_execution_state := []
    host_function := none
    auth_entries := []
    resources := none
    source_account := none }

/-- The footprint-fetching loop at the end of `build_current_state`: each
key is resolved through the snapshot source and appended; a backing error or
a missing entry aborts the loop (the `?` operator), keeping whatever was
already appended. -/
def fetch_footprint (snap : SnapshotFn) :
    List LedgerKey → RetroshadesExecution →
    RetroshadesExecution × Option RetroshadeError
  | [], st => (st, none)
  | key :: rest, st =>
      match snap key with
      | .error e => (st, some (.SVMHost e))
      | .ok none => (st, some (.EntryNotFound key))
      | .ok (some entry) =>
          fetch_footprint snap rest
            { st with target_pre_execution_state :=
                st.target_pre_execution_state ++ [entry] }

/-- The `RetroshadesExecution::build_current_state`.  Mirrors the `&mut self`
method: the returned state is the state observable after the call whether or
not an error is reported. -/
def build_current_state (st : RetroshadesExecution) (snapshot_source : SnapshotFn)
    (envelope : TransactionV1Envelope) :
    RetroshadesExecution × Option RetroshadeError :=
  let tx_source := envelope.tx.source_account
  match envelope.tx.ext with
  | .v0 => (st, some .NotSorobanTx)
  | .v1 resources =>
      let st := { st with resources := some resources }
      match envelope.tx.operations.head? with
      | some op =>
          match op.body with
          | .invokeHostFunction auth host_fn =>
              let muxed_source := op.source_account.getD tx_source
              let st := { st with
                auth_entries := auth
                host_function := some host_fn
                source_account := some (accountIdOfMuxed muxed_source) }
              let full_footprint :=
                resources.footprint.read_only ++ resources.footprint.read_write
              fetch_footprint snapshot_source full_footprint st
          | .other _ => (st, some .NotSorobanTx)
      | none => (st, some .NotSorobanTx)

/-! ## Rewind engine (`state.rs`) -/

/-- The per-variant match performed by each arm of the loop in
`RetroshadesExecution::update_entries` between a working-set entry and the
recorded prior state (`pre_execution`). -/
def updMatches (pre_execution : LedgerEntry) (entry : LedgerEntry) : Bool :=
  match entry.data, pre_execution.data with
  | .contractCode code, .contractCode pre_code => pre_code.hash == code.hash
  | .contractData data, .contractData pre_data =>
      data.contract == pre_data.contract && ScVal.beq data.key pre_data.key
  | .trustline data, .trustline pre_data =>
      data.asset == pre_data.asset && data.account_id == pre_data.account_id
  | .account data, .account pre_data => data.account_id == pre_data.account_id
  | _, _ => false

/-- The `iter_mut` loop body of `update_entries`: each matching entry is
overwritten with `(pre_execution.clone(), entry.1)` and `changed` is set. -/
def update_entries_loop (pre_execution : LedgerEntry) :
    List (LedgerEntry × Option Nat) → Bool →
    List (LedgerEntry × Option Nat) × Bool
  | [], changed => ([], changed)
  | p :: rest, changed =>
      let (p', changed') :=
        if updMatches pre_execution p.1 then ((pre_execution, p.2), true)
        else (p, changed)
      let (rest', changed'') := update_entries_loop pre_execution rest changed'
      (p' :: rest', changed'')

/-- The `RetroshadesExecution::update_entries`. -/
def update_entries (st : RetroshadesExecution) (pre_execution : LedgerEntry)
    (changed : Bool) : RetroshadesExecution × Bool :=
  let (ws', changed') :=
    update_entries_loop pre_execution st.target_pre_execution_state changed
  ({ st with target_pre_execution_state := ws' }, changed')

/-- The per-entry match of the first loop of
`RetroshadesExecution::remove_entry`: ContractCode working-set entries are
deliberately ignored ("wasm uploads"), ContractData is matched by
(contract, logical key), all other variants fall through unmatched. -/
def createdMatches (current_state_entry : LedgerEntry) (entry : LedgerEntry) : Bool :=
  match entry.data with
  | .contractCode _ => false
  | .contractData data =>
      match current_state_entry.data with
      | .contractData pre_data =>
          data.contract == pre_data.contract && ScVal.beq data.key pre_data.key
      | _ => false
  | _ => false

/-- The `enumerate`-based index collection of `remove_entry`
(`to_delete`). -/
def collectIdxs {α : Type} (p : α → Bool) : List α → Nat → List Nat
  | [], _ => []
  | a :: t, i => if p a then i :: collectIdxs p t (i + 1) else collectIdxs p t (i + 1)

/-- The shift-adjusted removal loop of `remove_entry`: a successful removal
increments `shift` and sets `changed`; an out-of-range adjusted index is
only logged. -/
def removeLoop {α : Type} : List α → List Nat → Nat → Bool → List α × Bool
  | ws, [], _, changed => (ws, changed)
  | ws, idx :: rest, shift, changed =>
      let target_idx_adjusted := idx - shift
      if ws.length > target_idx_adjusted then
        removeLoop (ws.eraseIdx target_idx_adjusted) rest (shift + 1) true
      else
        removeLoop ws rest shift changed

/-- The `RetroshadesExecution::remove_entry`. -/
def remove_entry (st : RetroshadesExecution) (current_state_entry : LedgerEntry)
    (changed : Bool) : RetroshadesExecution × Bool :=
  let ws := st.target_pre_execution_state
  let to_delete := collectIdxs (fun p => createdMatches current_state_entry p.1) ws 0
  let (ws', changed') := removeLoop ws to_delete 0 changed
  ({ st with target_pre_execution_state := ws' }, changed')

/-- The change-log fold of `RetroshadesExecution::process_operation`, with
its single piece of memory `current_state` (the pending prior state). -/
def process_changes (st : RetroshadesExecution) :
    List LedgerEntryChange → Option LedgerEntry → Bool →
    RetroshadesExecution × Bool
  | [], _, changed => (st, changed)
  | .state s :: rest, _, changed => process_changes st rest (some s) changed
  | .updated _ :: rest, current_state, changed =>
      (match current_state with
      | some pre_execution =>
          let (st', changed') := update_entries st pre_execution changed
          process_changes st' rest none changed'
      | none => process_changes st rest none changed)
  | .created e :: rest, current_state, changed =>
      let (st', changed') := remove_entry st e changed
      process_changes st' rest current_state changed'
  | .removed _ :: rest, current_state, changed =>
      process_changes st rest current_state changed
  | .other _ :: rest, current_state, changed =>
      process_changes st rest current_state changed

/-- The `RetroshadesExecution::process_operation` (always returns `Ok`). -/
def process_operation (st : RetroshadesExecution) (op : OperationMeta)
    (changed : Bool) : RetroshadesExecution × Bool :=
  process_changes st op.changes none changed

/-- The `RetroshadesExecution::state_reset_to_pre_execution`. -/
def state_reset_to_pre_execution (st : RetroshadesExecution)
    (tx_meta : TransactionMetaV3) : RetroshadesExecution × Bool :=
  tx_meta.operations.foldl
    (fun (acc : RetroshadesExecution × Bool) op =>
      process_operation acc.1 op acc.2)
    (st, false)

/-! ## Binary substitution (`state.rs::replace_binaries`) -/

/-- Insertion into the local `binaries_mutation` `HashMap` (later inserts
shadow earlier ones). -/
def insertMutation (m : Hash → Option (List Nat)) (k : Hash) (v : List Nat) :
    Hash → Option (List Nat) :=
  fun h => if h = k then some v else m h

/-- The loop body of `replace_binaries`'s first pass applied to one
working-set entry: for a ContractData entry, a non-contract owner address
is a hard `MalformedXdr` error; the instance record of a substituted
contract (instance key, instance value, wasm executable) contributes
`wasm hash ↦ new code`; everything else contributes nothing. -/
def entry_mutation (mercury_contracts : Hash → Option (List Nat))
    (p : LedgerEntry × Option Nat) :
    Except RetroshadeError (Option (Hash × List Nat)) :=
  match p.1.data with
  | .contractData data =>
      match data.contract with
      | .contract contract_hash =>
          match mercury_contracts contract_hash with
          | some new_code =>
              match data.key, data.val with
              | .ledgerKeyContractInstance, .contractInstance (some wasm) _ =>
                  .ok (some (wasm, new_code))
              | _, _ => .ok none
          | none => .ok none
      | .account _ => .error .MalformedXdr
  | _ => .ok none

/-- First pass of `replace_binaries`: fold `entry_mutation` over the
working set, accumulating the `binaries_mutation` map. -/
def collect_mutations (mercury_contracts : Hash → Option (List Nat)) :
    List (LedgerEntry × Option Nat) → (Hash → Option (List Nat)) →
    Except RetroshadeError (Hash → Option (List Nat))
  | [], acc => .ok acc
  | p :: rest, acc =>
      match entry_mutation mercury_contracts p with
      | .error e => .error e
      | .ok (some (wasm, new_code)) =>
          collect_mutations mercury_contracts rest
            (insertMutation acc wasm new_code)
      | .ok none => collect_mutations mercury_contracts rest acc

/-- Second pass of `replace_binaries`: overwrite the code bytes of every
ContractCode entry whose hash is in the collected mutation map. -/
def apply_mutations (binaries_mutation : Hash → Option (List Nat)) :
    List (LedgerEntry × Option Nat) → Bool →
    List (LedgerEntry × Option Nat) × Bool
  | [], replaced => ([], replaced)
  | p :: rest, replaced =>
      match p.1.data with
      | .contractCode code_entry =>
          (match binaries_mutation code_entry.hash with
          | some new_code =>
              let p' := ({ p.1 with data :=
                LedgerEntryData.contractCode { code_entry with code := new_code } }, p.2)
              let (rest', replaced') := apply_mutations binaries_mutation rest true
              (p' :: rest', replaced')
          | none =>
              let (rest', replaced') := apply_mutations binaries_mutation rest replaced
              (p :: rest', replaced'))
      | _ =>
          let (rest', replaced') := apply_mutations binaries_mutation rest replaced
          (p :: rest', replaced')

/-- The `RetroshadesExecution::replace_binaries`.  On the `MalformedXdr` error
path the working set has not been touched (the error occurs while building
the local mutation map), so the state is returned unchanged alongside the
error. -/
def replace_binaries (st : RetroshadesExecution)
    (mercury_contracts : Hash → Option (List Nat)) :
    RetroshadesExecution × Except RetroshadeError Bool :=
  match collect_mutations mercury_contracts st.target_pre_execution_state
      (fun _ => none) with
  | .error e => (st, .error e)
  | .ok binaries_mutation =>
      let (ws', replaced) :=
        apply_mutations binaries_mutation st.target_pre_execution_state false
      ({ st with target_pre_execution_state := ws' }, .ok replaced)

/-- The `build_from_envelope_and_meta`: reconstruction, rewind, substitution in
sequence (`?` aborts on the first reported error). -/
def build_from_envelope_and_meta (st : RetroshadesExecution)
    (snapshot_source : SnapshotFn) (tx_envelope : TransactionV1Envelope)
    (tx_meta : TransactionMetaV3) (mercury_contracts : Hash → Option (List Nat)) :
    RetroshadesExecution × Except RetroshadeError Bool :=
  match build_current_state st snapshot_source tx_envelope with
  | (st, some e) => (st, .error e)
  | (st, none) =>
      let (st, _) := state_reset_to_pre_execution st tx_meta
      replace_binaries st mercury_contracts

/-! ## Packed replay (`lib.rs::retroshade_packed`) -/

/-- The `zephyr::RetroshadeExport`: one export record produced by the external
executor. -/
structure RetroshadeExport where
  contract_id : Hash
  target : ScVal
  event_object : ScVal

/-- The `PackedEventEntry`. -/
structure PackedEventEntry where
  name : String
  value : FromScVal

/-- The `RetroshadeExportPretty`. -/
structure RetroshadeExportPretty where
  contract_id : String
  target : String
  event : List PackedEventEntry

/-- Modelled from the spec: the `From<ScVal>` conversion applied by
`retroshade_packed` to each event value (`key_value.val.into()`); its
implementation is not under `src/`.  The spec's conversion contract is
`convert(value, recursion_budget)` entered with a fresh budget, i.e.
`from_scval` at depth `0`; per the spec conversion never fails, so the
`none` case (unreachable, see the totality theorem) defaults to the
`Text("Invalid")` sentinel. -/
def scValInto (ser : Ser) (v : ScVal) : FromScVal :=
  ((from_scval ser v 0).map Prod.fst).getD (.mk .TEXT (.text "Invalid"))

/-- The key/value packing loop of `retroshade_packed`: every payload map key
must be a symbol, else `MalformedRetroshadeEvent`. -/
def pack_event_entries (ser : Ser) :
    List (ScVal × ScVal) → Except RetroshadeError (List PackedEventEntry)
  | [] => .ok []
  | (key, val) :: rest =>
      match key with
      | .symbol s =>
          (pack_event_entries ser rest).map
            (fun es => { name := s, value := scValInto ser val } :: es)
      | _ => .error .MalformedRetroshadeEvent

/-- The per-record body of `retroshade_packed`'s loop: the payload must be
`Map(Some _)` and the target a symbol, else `MalformedRetroshadeEvent`. -/
def pack_record (ser : Ser) (retroshade : RetroshadeExport) :
    Except RetroshadeError RetroshadeExportPretty :=
  match retroshade.event_object with
  | .map (some map_entry) =>
      match pack_event_entries ser map_entry with
      | .error e => .error e
      | .ok packed_event_entries =>
          match retroshade.target with
          | .symbol t =>
              .ok { contract_id := ser.contractStr retroshade.contract_id
                    target := t
                    event := packed_event_entries }
          | _ => .error .MalformedRetroshadeEvent
  | _ => .error .MalformedRetroshadeEvent

/-- The record loop of `retroshade_packed` over the export records of an
execution result (the executor call itself and the diagnostics printing are
external I/O). -/
def retroshade_packed (ser : Ser) :
    List RetroshadeExport → Except RetroshadeError (List RetroshadeExportPretty)
  | [] => .ok []
  | r :: rest =>
      match pack_record ser r with
      | .error e => .error e
      | .ok pretty => (retroshade_packed ser rest).map (fun ps => pretty :: ps)

/-- A code hash is referenced for substitution when some working-set entry
is the contract-instance record of a substituted contract whose executable
is that hash (the first pass of `replace_binaries` collects exactly
these). -/
def referencedHash (mercury_contracts : Hash → Option (List Nat))
    (ws : List (LedgerEntry × Option Nat)) (h : Hash) : Bool :=
  ws.any (fun p =>
    match entry_mutation mercury_contracts p with
    | .ok (some (wasm, _)) => wasm == h
    | _ => false)

/-- What `retroshade_packed` actually accepts: the payload is a present map
(`Map(Some _)`) all of whose keys are symbols, and the target is a symbol
— text (string) keys and targets are rejected. -/
def exportWellFormed (r : RetroshadeExport) : Bool :=
  (match r.event_object with
   | .map (some m) =>
       m.all (fun kv => match kv.1 with | ScVal.symbol _ => true | _ => false)
   | _ => false) &&
  (match r.target with | ScVal.symbol _ => true | _ => false)

/-! ## Theorems -/

/- Lawfulness of the hand-written structural equalities: they coincide with
propositional equality, as Rust's derived `PartialEq` does. -/
mutual

theorem ScVal.beq_refl : ∀ v : ScVal, ScVal.beq v v = true
  | .bool b => by
      show (b == b) = true
      simp
  | .void => rfl
  | .error e => by
      show (e == e) = true
      simp
  | .u32 n => by
      show (n == n) = true
      simp
  | .i32 n => by
      show (n == n) = true
      simp
  | .u64 n => by
      show (n == n) = true
      simp
  | .i64 n => by
      show (n == n) = true
      simp
  | .timepoint n => by
      show (n == n) = true
      simp
  | .duration n => by
      show (n == n) = true
      simp
  | .u128 a b => by
      show (a == a && b == b) = true
      simp
  | .i128 a b => by
      show (a == a && b == b) = true
      simp
  | .u256 a b c d => by
      show (a == a && b == b && c == c && d == d) = true
      simp
  | .i256 a b c d => by
      show (a == a && b == b && c == c && d == d) = true
      simp
  | .bytes b => by
      show (b == b) = true
      simp
  | .str s => by
      show (s == s) = true
      simp
  | .symbol s => by
      show (s == s) = true
      simp
  | .vec none => rfl
  | .vec (some l) => by
      show ScVal.beqList l l = true
      exact ScVal.beqList_refl l
  | .map none => rfl
  | .map (some m) => by
      show ScVal.beqPairs m m = true
      exact ScVal.beqPairs_refl m
  | .address a => by
      show (a == a) = true
      simp
  | .contractInstance e none => by
      show (e == e) = true
      simp
  | .contractInstance e (some s) => by
      show (e == e && ScVal.beqPairs s s) = true
      rw [ScVal.beqPairs_refl s]
      simp
  | .ledgerKeyContractInstance => rfl
  | .ledgerKeyNonce n => by
      show (n == n) = true
      simp

theorem ScVal.beqList_refl : ∀ l : List ScVal, ScVal.beqList l l = true
  | [] => rfl
  | x :: xs => by
      show (ScVal.beq x x && ScVal.beqList xs xs) = true
      rw [ScVal.beq_refl x, ScVal.beqList_refl xs]
      rfl

theorem ScVal.beqPairs_refl : ∀ l : List (ScVal × ScVal), ScVal.beqPairs l l = true
  | [] => rfl
  | (k, v) :: xs => by
      show (ScVal.beq k k && ScVal.beq v v && ScVal.beqPairs xs xs) = true
      rw [ScVal.beq_refl k, ScVal.beq_refl v, ScVal.beqPairs_refl xs]
      rfl

end

/-- Soundness of the structural equalities, by strong induction on the
size of the first argument. -/
theorem scval_eq_of_beq_aux : ∀ n : Nat,
    (∀ v w : ScVal, sizeOf v ≤ n → ScVal.beq v w = true → v = w) ∧
    (∀ l m : List ScVal, sizeOf l ≤ n → ScVal.beqList l m = true → l = m) ∧
    (∀ p q : List (ScVal × ScVal), sizeOf p ≤ n →
      ScVal.beqPairs p q = true → p = q) := by
  intro n
  induction n using Nat.strong_induction_on with
  | _ n IH =>
    refine ⟨?_, ?_, ?_⟩
    · intro v w hs h
      cases v with
      | bool b =>
          cases w <;> try exact Bool.noConfusion h
          rename_i b'
          have h' : (b == b') = true := h
          simp at h'
          rw [h']
      | void =>
          cases w <;> try exact Bool.noConfusion h
          rfl
      | error e =>
          cases w <;> try exact Bool.noConfusion h
          rename_i e'
          have h' : (e == e') = true := h
          simp at h'
          rw [h']
      | u32 a =>
          cases w <;> try exact Bool.noConfusion h
          rename_i a'
          have h' : (a == a') = true := h
          simp at h'
          rw [h']
      | i32 a =>
          cases w <;> try exact Bool.noConfusion h
          rename_i a'
          have h' : (a == a') = true := h
          simp at h'
          rw [h']
      | u64 a =>
          cases w <;> try exact Bool.noConfusion h
          rename_i a'
          have h' : (a == a') = true := h
          simp at h'
          rw [h']
      | i64 a =>
          cases w <;> try exact Bool.noConfusion h
          rename_i a'
          have h' : (a == a') = true := h
          simp at h'
          rw [h']
      | timepoint a =>
          cases w <;> try exact Bool.noConfusion h
          rename_i a'
          have h' : (a == a') = true := h
          simp at h'
          rw [h']
      | duration a =>
          cases w <;> try exact Bool.noConfusion h
          rename_i a'
          have h' : (a == a') = true := h
          simp at h'
          rw [h']
      | u128 a b =>
          cases w <;> try exact Bool.noConfusion h
          rename_i a' b'
          have h' : (a == a' && b == b') = true := h
          simp at h'
          obtain ⟨rfl, rfl⟩ := h'
          rfl
      | i128 a b =>
          cases w <;> try exact Bool.noConfusion h
          rename_i a' b'
          have h' : (a == a' && b == b') = true := h
          simp at h'
          obtain ⟨rfl, rfl⟩ := h'
          rfl
      | u256 a b c d =>
          cases w <;> try exact Bool.noConfusion h
          rename_i a' b' c' d'
          have h' : (a == a' && b == b' && c == c' && d == d') = true := h
          simp at h'
          obtain ⟨⟨⟨rfl, rfl⟩, rfl⟩, rfl⟩ := h'
          rfl
      | i256 a b c d =>
          cases w <;> try exact Bool.noConfusion h
          rename_i a' b' c' d'
          have h' : (a == a' && b == b' && c == c' && d == d') = true := h
          simp at h'
          obtain ⟨⟨⟨rfl, rfl⟩, rfl⟩, rfl⟩ := h'
          rfl
      | bytes b =>
          cases w <;> try exact Bool.noConfusion h
          rename_i b'
          have h' : (b == b') = true := h
          simp at h'
          rw [h']
      | str s =>
          cases w <;> try exact Bool.noConfusion h
          rename_i s'
          have h' : (s == s') = true := h
          simp at h'
          rw [h']
      | symbol s =>
          cases w <;> try exact Bool.noConfusion h
          rename_i s'
          have h' : (s == s') = true := h
          simp at h'
          rw [h']
      | vec ov =>
          cases ov with
          | none =>
              cases w <;> try exact Bool.noConfusion h
              rename_i ow
              cases ow with
              | none => rfl
              | some m => exact Bool.noConfusion h
          | some l =>
              cases w <;> try exact Bool.noConfusion h
              rename_i ow
              cases ow with
              | none => exact Bool.noConfusion h
              | some m =>
                  have h' : ScVal.beqList l m = true := h
                  have hlt : sizeOf l < n := by
                    simp at hs
                    omega
                  rw [((IH (sizeOf l) hlt).2.1) l m (le_refl _) h']
      | map op =>
          cases op with
          | none =>
              cases w <;> try exact Bool.noConfusion h
              rename_i oq
              cases oq with
              | none => rfl
              | some q => exact Bool.noConfusion h
          | some p =>
              cases w <;> try exact Bool.noConfusion h
              rename_i oq
              cases oq with
              | none => exact Bool.noConfusion h
              | some q =>
                  have h' : ScVal.beqPairs p q = true := h
                  have hlt : sizeOf p < n := by
                    simp at hs
                    omega
                  rw [((IH (sizeOf p) hlt).2.2) p q (le_refl _) h']
      | address a =>
          cases w <;> try exact Bool.noConfusion h
          rename_i a'
          have h' : (a == a') = true := h
          simp at h'
          rw [h']
      | contractInstance e os =>
          cases os with
          | none =>
              cases w <;> try exact Bool.noConfusion h
              rename_i e' os'
              cases os' with
              | none =>
                  have h' : (e == e') = true := h
                  simp at h'
                  rw [h']
              | some s' => exact Bool.noConfusion h
          | some s =>
              cases w <;> try exact Bool.noConfusion h
              rename_i e' os'
              cases os' with
              | none => exact Bool.noConfusion h
              | some s' =>
                  have h' : (e == e' && ScVal.beqPairs s s') = true := h
                  rw [Bool.and_eq_true] at h'
                  have he : e = e' := by
                    have := h'.1
                    simp at this
                    exact this
                  have hlt : sizeOf s < n := by
                    simp at hs
                    omega
                  rw [he, ((IH (sizeOf s) hlt).2.2) s s' (le_refl _) h'.2]
      | ledgerKeyContractInstance =>
          cases w <;> try exact Bool.noConfusion h
          rfl
      | ledgerKeyNonce a =>
          cases w <;> try exact Bool.noConfusion h
          rename_i a'
          have h' : (a == a') = true := h
          simp at h'
          rw [h']
    · intro l m hs h
      cases l with
      | nil =>
          cases m with
          | nil => rfl
          | cons y ys => exact Bool.noConfusion h
      | cons x xs =>
          cases m with
          | nil => exact Bool.noConfusion h
          | cons y ys =>
              have h' : (ScVal.beq x y && ScVal.beqList xs ys) = true := h
              rw [Bool.and_eq_true] at h'
              have hx : sizeOf x < n := by
                simp at hs
                omega
              have hxs : sizeOf xs < n := by
                simp at hs
                omega
              rw [((IH (sizeOf x) hx).1) x y (le_refl _) h'.1,
                ((IH (sizeOf xs) hxs).2.1) xs ys (le_refl _) h'.2]
    · intro p q hs h
      cases p with
      | nil =>
          cases q with
          | nil => rfl
          | cons y ys => exact Bool.noConfusion h
      | cons x xs =>
          obtain ⟨k, v⟩ := x
          cases q with
          | nil => exact Bool.noConfusion h
          | cons y ys =>
              obtain ⟨k', v'⟩ := y
              have h' : (ScVal.beq k k' && ScVal.beq v v' && ScVal.beqPairs xs ys) = true := h
              rw [Bool.and_eq_true, Bool.and_eq_true] at h'
              have hk : sizeOf k < n := by
                simp at hs
                omega
              have hv : sizeOf v < n := by
                simp at hs
                omega
              have hxs : sizeOf xs < n := by
                simp at hs
                omega
              rw [((IH (sizeOf k) hk).1) k k' (le_refl _) h'.1.1,
                ((IH (sizeOf v) hv).1) v v' (le_refl _) h'.1.2,
                ((IH (sizeOf xs) hxs).2.2) xs ys (le_refl _) h'.2]

/-- The hand-written `ScVal.beq` is exactly propositional equality, as
Rust's derived `PartialEq` is. -/
theorem ScVal.beq_sound_complete (v w : ScVal) : ScVal.beq v w = true ↔ v = w :=
  ⟨fun h => ((scval_eq_of_beq_aux (sizeOf v)).1 v w (le_refl _)) h,
   fun h => h ▸ ScVal.beq_refl v⟩

/-- The hand-written `LedgerKey.beq` is exactly propositional equality. -/
theorem LedgerKey.ledgerKey_beq_iff_eq (k k' : LedgerKey) :
    LedgerKey.beq k k' = true ↔ k = k' := by
  constructor
  · intro h
    cases k with
    | account a =>
        cases k' <;> try exact Bool.noConfusion h
        rename_i a'
        have h' : (a == a') = true := h
        simp at h'
        rw [h']
    | trustline s a =>
        cases k' <;> try exact Bool.noConfusion h
        rename_i s' a'
        have h' : (s == s' && a == a') = true := h
        simp at h'
        obtain ⟨rfl, rfl⟩ := h'
        rfl
    | contractData c key dur =>
        cases k' <;> try exact Bool.noConfusion h
        rename_i c' key' dur'
        have h' : (c == c' && ScVal.beq key key' && dur == dur') = true := h
        rw [Bool.and_eq_true, Bool.and_eq_true] at h'
        have hc : c = c' := by
          have := h'.1.1
          simp at this
          exact this
        have hkey : key = key' := (ScVal.beq_sound_complete key key').mp h'.1.2
        have hdur : dur = dur' := by
          have := h'.2
          simp at this
          exact this
        rw [hc, hkey, hdur]
    | contractCode hsh =>
        cases k' <;> try exact Bool.noConfusion h
        rename_i hsh'
        have h' : (hsh == hsh') = true := h
        simp at h'
        rw [h']
    | other a =>
        cases k' <;> try exact Bool.noConfusion h
        rename_i a'
        have h' : (a == a') = true := h
        simp at h'
        rw [h']
  · intro h
    subst h
    cases k with
    | account a =>
        show (a == a) = true
        simp
    | trustline s a =>
        show (s == s && a == a) = true
        simp
    | contractData c key dur =>
        show (c == c && ScVal.beq key key && dur == dur) = true
        rw [ScVal.beq_refl key]
        simp
    | contractCode hsh =>
        show (hsh == hsh) = true
        simp
    | other a =>
        show (a == a) = true
        simp

/-- C9: the layered snapshot source resolves in a fixed order in which an
override takes priority over forced absence: an override entry is returned
with its captured horizon regardless of the force-absent set and without
consulting the backing source (the result is the same for every backing
source); with no override, a force-absent hit yields `None`, again without
consulting the backing source; otherwise `get` delegates to the backing
source. -/
theorem C9_layered_snapshot_resolution_order
    (inner inner' : SnapshotFn) (target : List (LedgerEntry × Option Nat))
    (force : List LedgerEntry) (key : LedgerKey) :
    (∀ pair, target.find? (fun p => keyMatchesEntry key p.1) = some pair →
      InternalSnapshot.get ⟨inner, target, force⟩ key = .ok (some pair) ∧
      InternalSnapshot.get ⟨inner, target, force⟩ key =
        InternalSnapshot.get ⟨inner', target, force⟩ key) ∧
    (target.find? (fun p => keyMatchesEntry key p.1) = none →
      (force.find? (fun e => keyMatchesEntry key e)).isSome = true →
      InternalSnapshot.get ⟨inner, target, force⟩ key = .ok none ∧
      InternalSnapshot.get ⟨inner, target, force⟩ key =
        InternalSnapshot.get ⟨inner', target, force⟩ key) ∧
    (target.find? (fun p => keyMatchesEntry key p.1) = none →
      (force.find? (fun e => keyMatchesEntry key e)).isSome = false →
      InternalSnapshot.get ⟨inner, target, force⟩ key = inner key) := by
  refine ⟨fun pair hfind => ?_, fun hfind hforce => ?_, fun hfind hforce => ?_⟩
  · obtain ⟨entry, lifetime⟩ := pair
    simp [InternalSnapshot.get, hfind]
  · simp [InternalSnapshot.get, hfind, hforce]
  · simp [InternalSnapshot.get, hfind, hforce]

/-- Witness for C9: a concrete key present both as an override and in the
force-absent list; the override wins and two different backing sources give
the same answer. -/
theorem C9_layered_snapshot_resolution_order_witness :
    InternalSnapshot.get
      ⟨fun _ => .error 7,
       [(⟨1, .account ⟨4, 10⟩⟩, some 99)],
       [⟨2, .account ⟨4, 55⟩⟩]⟩
      (.account 4) = .ok (some (⟨1, .account ⟨4, 10⟩⟩, some 99)) := by
  have h :=
    (C9_layered_snapshot_resolution_order
      (fun _ => .error 7) (fun _ => .ok none)
      [(⟨1, .account ⟨4, 10⟩⟩, some 99)]
      [⟨2, .account ⟨4, 55⟩⟩]
      (.account 4)).1
      (⟨1, .account ⟨4, 10⟩⟩, some 99) rfl
  exact h.1

/-- If the snapshot answers every key of the list, the fetching loop
succeeds and appends the answers in list order. -/
theorem fetch_footprint_all_answered (snap : SnapshotFn)
    (f : LedgerKey → LedgerEntry × Option Nat) :
    ∀ (keys : List LedgerKey) (st : RetroshadesExecution),
    (∀ k ∈ keys, snap k = .ok (some (f k))) →
    fetch_footprint snap keys st =
      ({ st with target_pre_execution_state :=
          st.target_pre_execution_state ++ keys.map f }, none)
  | [], st, _ => by simp [fetch_footprint]
  | key :: rest, st, h => by
      have hk := h key (by simp)
      have hrest : ∀ k ∈ rest, snap k = .ok (some (f k)) :=
        fun k hkmem => h k (by simp [hkmem])
      simp only [fetch_footprint, hk]
      rw [fetch_footprint_all_answered snap f rest _ hrest]
      simp

/-- If the snapshot answers the keys of `pre` but has no entry for `kmiss`,
the fetching loop stops at `kmiss` with `EntryNotFound`, keeping the
answers for `pre` already appended to the working set. -/
theorem fetch_footprint_missing_key (snap : SnapshotFn)
    (f : LedgerKey → LedgerEntry × Option Nat) (kmiss : LedgerKey)
    (post : List LedgerKey) :
    ∀ (pre : List LedgerKey) (st : RetroshadesExecution),
    (∀ k ∈ pre, snap k = .ok (some (f k))) →
    snap kmiss = .ok none →
    fetch_footprint snap (pre ++ kmiss :: post) st =
      ({ st with target_pre_execution_state :=
          st.target_pre_execution_state ++ pre.map f },
       some (.EntryNotFound kmiss))
  | [], st, _, hmiss => by simp [fetch_footprint, hmiss]
  | key :: rest, st, h, hmiss => by
      have hk := h key (by simp)
      have hrest : ∀ k ∈ rest, snap k = .ok (some (f k)) :=
        fun k hkmem => h k (by simp [hkmem])
      simp only [List.cons_append, fetch_footprint, hk]
      rw [List.append_eq, fetch_footprint_missing_key snap f kmiss post rest _ hrest hmiss]
      simp

/-- C5: for a V1-soroban envelope whose first operation invokes a host
function, and a snapshot source answering every footprint key,
`build_current_state` succeeds and the resulting working set is exactly one
(entry, horizon) pair per footprint key — the snapshot's answer — in
footprint order (read-only keys in declaration order, then read-write keys
in declaration order); the extracted host function, auth entries, resources
and effective source account are set as declared. -/
theorem C5_build_current_state_success (snap : SnapshotFn)
    (f : LedgerKey → LedgerEntry × Option Nat)
    (envelope : TransactionV1Envelope) (resources : SorobanResources)
    (op : Operation) (auth : List Nat) (host_fn : Nat)
    (hext : envelope.tx.ext = .v1 resources)
    (hop : envelope.tx.operations.head? = some op)
    (hbody : op.body = .invokeHostFunction auth host_fn)
    (hsnap : ∀ k ∈ resources.footprint.read_only ++ resources.footprint.read_write,
      snap k = .ok (some (f k))) :
    build_current_state RetroshadesExecution.new snap envelope =
      ({ target_pre_execution_state :=
          (resources.footprint.read_only ++ resources.footprint.read_write).map f
         host_function := some host_fn
         auth_entries := auth
         resources := some resources
         source_account :=
           some (accountIdOfMuxed
             (op.source_account.getD envelope.tx.source_account)) },
       none) := by
  simp only [build_current_state, hext, hop, hbody]
  rw [fetch_footprint_all_answered snap f _ _ hsnap]
  simp [RetroshadesExecution.new]

/-- Witness for C5: a concrete two-key footprint resolved by a concrete
snapshot; the working set lists the two answers in footprint order. -/
theorem C5_build_current_state_success_witness :
    build_current_state RetroshadesExecution.new
      (fun k => match k with
        | .contractCode h => .ok (some (⟨1, .contractCode ⟨h, [0]⟩⟩, some 9))
        | .account a => .ok (some (⟨2, .account ⟨a, 5⟩⟩, none))
        | _ => .ok none)
      ⟨⟨.ed25519 3,
        [⟨none, .invokeHostFunction [11] 12⟩],
        .v1 ⟨⟨[.contractCode 8], [.account 4]⟩, 0, 0, 0⟩⟩⟩ =
      ({ target_pre_execution_state :=
          [(⟨1, .contractCode ⟨8, [0]⟩⟩, some 9), (⟨2, .account ⟨4, 5⟩⟩, none)]
         host_function := some 12
         auth_entries := [11]
         resources := some ⟨⟨[.contractCode 8], [.account 4]⟩, 0, 0, 0⟩
         source_account := some 3 },
       none) := by
  have h := C5_build_current_state_success
    (fun k => match k with
      | .contractCode h => .ok (some (⟨1, .contractCode ⟨h, [0]⟩⟩, some 9))
      | .account a => .ok (some (⟨2, .account ⟨a, 5⟩⟩, none))
      | _ => .ok none)
    (fun k => match k with
      | .contractCode h => (⟨1, .contractCode ⟨h, [0]⟩⟩, some 9)
      | .account a => (⟨2, .account ⟨a, 5⟩⟩, none)
      | _ => (⟨0, .other 0⟩, none))
    ⟨⟨.ed25519 3,
      [⟨none, .invokeHostFunction [11] 12⟩],
      .v1 ⟨⟨[.contractCode 8], [.account 4]⟩, 0, 0, 0⟩⟩⟩
    ⟨⟨[.contractCode 8], [.account 4]⟩, 0, 0, 0⟩
    ⟨none, .invokeHostFunction [11] 12⟩
    [11] 12 rfl rfl rfl (by intro k hk; fin_cases hk <;> rfl)
  exact h

/-- C3 counterexample: a two-key footprint whose second key has no answer.
`build_current_state` does fail with `EntryNotFound`, but the working set
observable afterward contains the entry fetched for the first key — it is
not the same as before the call, refuting the all-or-nothing part of the
claim. -/
theorem C3_counterexample_partial_state_survives :
    build_current_state RetroshadesExecution.new
      (fun k => match k with
        | .contractCode 1 => .ok (some (⟨1, .contractCode ⟨1, []⟩⟩, none))
        | _ => .ok none)
      ⟨⟨.ed25519 3, [⟨none, .invokeHostFunction [] 0⟩],
        .v1 ⟨⟨[.contractCode 1, .contractCode 2], []⟩, 0, 0, 0⟩⟩⟩ =
      ({ target_pre_execution_state := [(⟨1, .contractCode ⟨1, []⟩⟩, none)]
         host_function := some 0
         auth_entries := []
         resources := some ⟨⟨[.contractCode 1, .contractCode 2], []⟩, 0, 0, 0⟩
         source_account := some 3 },
       some (.EntryNotFound (.contractCode 2))) ∧
    (build_current_state RetroshadesExecution.new
      (fun k => match k with
        | .contractCode 1 => .ok (some (⟨1, .contractCode ⟨1, []⟩⟩, none))
        | _ => .ok none)
      ⟨⟨.ed25519 3, [⟨none, .invokeHostFunction [] 0⟩],
        .v1 ⟨⟨[.contractCode 1, .contractCode 2], []⟩, 0, 0, 0⟩⟩⟩).1.target_pre_execution_state ≠
      RetroshadesExecution.new.target_pre_execution_state := by
  refine ⟨rfl, ?_⟩
  intro h
  simp [build_current_state, fetch_footprint, RetroshadesExecution.new] at h

/-- C3 amended: if some footprint key has no answer, `build_current_state`
fails with `EntryNotFound` for the first such key, but the working set is
not rolled back — the pairs fetched for the keys before the missing one
remain appended (there is no all-or-nothing guarantee). -/
theorem C3_amended_entry_not_found_keeps_prefix (snap : SnapshotFn)
    (f : LedgerKey → LedgerEntry × Option Nat)
    (envelope : TransactionV1Envelope) (resources : SorobanResources)
    (op : Operation) (auth : List Nat) (host_fn : Nat) (kmiss : LedgerKey)
    (pre post : List LedgerKey) (st : RetroshadesExecution)
    (hext : envelope.tx.ext = .v1 resources)
    (hop : envelope.tx.operations.head? = some op)
    (hbody : op.body = .invokeHostFunction auth host_fn)
    (hfoot : resources.footprint.read_only ++ resources.footprint.read_write =
      pre ++ kmiss :: post)
    (hpre : ∀ k ∈ pre, snap k = .ok (some (f k)))
    (hmiss : snap kmiss = .ok none) :
    build_current_state st snap envelope =
      ({ st with
          target_pre_execution_state :=
            st.target_pre_execution_state ++ pre.map f
          host_function := some host_fn
          auth_entries := auth
          resources := some resources
          source_account :=
            some (accountIdOfMuxed
              (op.source_account.getD envelope.tx.source_account)) },
       some (.EntryNotFound kmiss)) := by
  simp only [build_current_state, hext, hop, hbody, hfoot]
  rw [fetch_footprint_missing_key snap f kmiss post pre _ hpre hmiss]

/-- Witness for C3's amended theorem at the counterexample input. -/
theorem C3_amended_entry_not_found_keeps_prefix_witness :
    build_current_state RetroshadesExecution.new
      (fun k => match k with
        | .contractCode 1 => .ok (some (⟨1, .contractCode ⟨1, []⟩⟩, none))
        | _ => .ok none)
      ⟨⟨.ed25519 3, [⟨none, .invokeHostFunction [] 0⟩],
        .v1 ⟨⟨[.contractCode 1, .contractCode 2], []⟩, 0, 0, 0⟩⟩⟩ =
      ({ target_pre_execution_state := [(⟨1, .contractCode ⟨1, []⟩⟩, none)]
         host_function := some 0
         auth_entries := []
         resources := some ⟨⟨[.contractCode 1, .contractCode 2], []⟩, 0, 0, 0⟩
         source_account := some 3 },
       some (.EntryNotFound (.contractCode 2))) := by
  have h := C3_amended_entry_not_found_keeps_prefix
    (fun k => match k with
      | .contractCode 1 => .ok (some (⟨1, .contractCode ⟨1, []⟩⟩, none))
      | _ => .ok none)
    (fun _ => (⟨1, .contractCode ⟨1, []⟩⟩, none))
    ⟨⟨.ed25519 3, [⟨none, .invokeHostFunction [] 0⟩],
      .v1 ⟨⟨[.contractCode 1, .contractCode 2], []⟩, 0, 0, 0⟩⟩⟩
    ⟨⟨[.contractCode 1, .contractCode 2], []⟩, 0, 0, 0⟩
    ⟨none, .invokeHostFunction [] 0⟩ [] 0 (.contractCode 2)
    [.contractCode 1] [] RetroshadesExecution.new
    rfl rfl rfl rfl (by intro k hk; fin_cases hk; rfl) rfl
  exact h

/-- The `iter_mut` loop of `update_entries` is a pointwise map, and the
`changed` flag records whether any entry matched. -/
theorem update_entries_loop_eq (pre_execution : LedgerEntry) :
    ∀ (ws : List (LedgerEntry × Option Nat)) (changed : Bool),
    update_entries_loop pre_execution ws changed =
      (ws.map (fun p =>
        if updMatches pre_execution p.1 then (pre_execution, p.2) else p),
       changed || ws.any (fun p => updMatches pre_execution p.1))
  | [], changed => by simp [update_entries_loop]
  | p :: rest, changed => by
      by_cases h : updMatches pre_execution p.1
      · simp [update_entries_loop, h, update_entries_loop_eq pre_execution rest true]
      · simp [update_entries_loop, h, update_entries_loop_eq pre_execution rest changed]

/-- Every index collected by `collectIdxs` is at least the starting
index. -/
theorem collectIdxs_lb {α : Type} (p : α → Bool) :
    ∀ (l : List α) (i : Nat), ∀ j ∈ collectIdxs p l i, i ≤ j
  | [], i => by simp [collectIdxs]
  | a :: t, i => by
      intro j hj
      by_cases h : p a
      · simp only [collectIdxs, if_pos h, List.mem_cons] at hj
        rcases hj with rfl | hj
        · exact le_refl j
        · have := collectIdxs_lb p t (i + 1) j hj
          omega
      · simp only [collectIdxs, if_neg h] at hj
        have := collectIdxs_lb p t (i + 1) j hj
        omega

/-- The indices collected by `collectIdxs` are strictly increasing. -/
theorem collectIdxs_pairwise {α : Type} (p : α → Bool) :
    ∀ (l : List α) (i : Nat), (collectIdxs p l i).Pairwise (· < ·)
  | [], i => by simp [collectIdxs]
  | a :: t, i => by
      by_cases h : p a
      · simp only [collectIdxs, if_pos h]
        refine List.Pairwise.cons ?_ (collectIdxs_pairwise p t (i + 1))
        intro j hj
        have := collectIdxs_lb p t (i + 1) j hj
        omega
      · simp only [collectIdxs, if_neg h]
        exact collectIdxs_pairwise p t (i + 1)

/-- Pointwise-equal predicates give equal `List.any` results. -/
theorem list_any_congr {α : Type} (f g : α → Bool) :
    ∀ l : List α, (∀ a ∈ l, f a = g a) → l.any f = l.any g
  | [], _ => rfl
  | a :: t, h => by
      simp only [List.any_cons, h a (by simp)]
      rw [list_any_congr f g t (fun b hb => h b (by simp [hb]))]

/-- The removal loop never touches the head of the list when every index is
strictly above `shift` (the indices being strictly increasing keeps this
invariant through the loop). -/
theorem removeLoop_cons_skip {α : Type} :
    ∀ (idxs : List Nat) (a : α) (ws : List α) (shift : Nat) (c : Bool),
    (∀ i ∈ idxs, shift + 1 ≤ i) → idxs.Pairwise (· < ·) →
    removeLoop (a :: ws) idxs shift c =
      (a :: (removeLoop ws idxs (shift + 1) c).1,
       (removeLoop ws idxs (shift + 1) c).2)
  | [], a, ws, shift, c, _, _ => by simp [removeLoop]
  | i :: rest, a, ws, shift, c, hlb, hpw => by
      have hi : shift + 1 ≤ i := hlb i (by simp)
      have hcons := List.pairwise_cons.mp hpw
      have hrest_lb : ∀ j ∈ rest, shift + 2 ≤ j := by
        intro j hj
        have := hcons.1 j hj
        omega
      have htarget : i - shift = (i - (shift + 1)) + 1 := by omega
      simp only [removeLoop]
      by_cases hg : ws.length > i - (shift + 1)
      · have hg1 : (a :: ws).length > i - shift := by
          simp only [List.length_cons]
          omega
        rw [if_pos hg1, if_pos hg, htarget, List.eraseIdx_cons_succ]
        exact removeLoop_cons_skip rest a (ws.eraseIdx (i - (shift + 1)))
          (shift + 1) true hrest_lb hcons.2
      · have hg1 : ¬ (a :: ws).length > i - shift := by
          simp only [List.length_cons]
          omega
        rw [if_neg hg1, if_neg hg]
        exact removeLoop_cons_skip rest a ws shift c
          (fun j hj => by have := hrest_lb j hj; omega) hcons.2

/-- The index-collect-then-shift-remove dance of `remove_entry` is exactly
retain-by-predicate, and the `changed` flag records whether anything was
removed. -/
theorem removeLoop_collectIdxs {α : Type} (p : α → Bool) :
    ∀ (ws : List α) (shift : Nat) (c : Bool),
    removeLoop ws (collectIdxs p ws shift) shift c =
      (ws.filter (fun a => !p a), c || ws.any p)
  | [], shift, c => by simp [collectIdxs, removeLoop]
  | a :: t, shift, c => by
      by_cases h : p a
      · simp only [collectIdxs, if_pos h, removeLoop, Nat.sub_self]
        have hg : (a :: t).length > 0 := by simp
        rw [if_pos hg]
        simp only [List.eraseIdx_cons_zero]
        rw [removeLoop_collectIdxs p t (shift + 1) true]
        simp [h]
      · simp only [collectIdxs, if_neg h]
        rw [removeLoop_cons_skip _ a t shift c (collectIdxs_lb p t (shift + 1))
          (collectIdxs_pairwise p t (shift + 1))]
        rw [removeLoop_collectIdxs p t (shift + 1) c]
        simp [h]

/-- The `remove_entry` retains exactly the working-set entries that do not match
the created entry (ContractData-by-(contract, key) matching only). -/
theorem remove_entry_eq (st : RetroshadesExecution)
    (current_state_entry : LedgerEntry) (changed : Bool) :
    remove_entry st current_state_entry changed =
      ({ st with
          target_pre_execution_state :=
            List.filter (fun p => !createdMatches current_state_entry p.1)
              st.target_pre_execution_state },
       changed || st.target_pre_execution_state.any
         (fun p => createdMatches current_state_entry p.1)) := by
  simp only [remove_entry]
  rw [removeLoop_collectIdxs]

/-- C2 counterexample: an Account working-set entry whose key (account
identity, the claim's own per-variant rule, as computed by `entryKey?` and
matched by `updMatches`) is exactly the key of a `[Created(e)]` change —
yet after rewind the entry is still present: `remove_entry` only ever
removes ContractData entries. -/
theorem C2_counterexample_created_account_not_removed :
    (process_operation
      { RetroshadesExecution.new with
          target_pre_execution_state := [(⟨5, .account ⟨7, 100⟩⟩, none)] }
      ⟨[.created ⟨5, .account ⟨7, 100⟩⟩]⟩ false).1.target_pre_execution_state =
      [(⟨5, .account ⟨7, 100⟩⟩, none)] ∧
    updMatches ⟨5, .account ⟨7, 100⟩⟩ ⟨5, .account ⟨7, 100⟩⟩ = true ∧
    entryKey? ⟨5, .account ⟨7, 100⟩⟩ = some (.account 7) := by
  exact ⟨rfl, rfl, rfl⟩

/-- C2 amended: processing a change log `[Created(e)]` removes exactly the
working-set entries that match `e` under the ContractData-only rule
(contract identity and logical key; durability not compared): ContractCode
working-set entries are deliberately skipped, and `Created` changes for the
Account, Trustline and ContractCode variants (or any entry that is not
ContractData) leave the working set unchanged. -/
theorem C2_amended_created_removes_only_contract_data
    (st : RetroshadesExecution) (e : LedgerEntry) (changed : Bool) :
    (process_operation st ⟨[.created e]⟩ changed).1.target_pre_execution_state =
      List.filter (fun p => !createdMatches e p.1)
        st.target_pre_execution_state ∧
    (∀ p ∈ (process_operation st ⟨[.created e]⟩ changed).1.target_pre_execution_state,
      createdMatches e p.1 = false) ∧
    (process_operation st ⟨[.created e]⟩ changed).2 =
      (changed || st.target_pre_execution_state.any
        (fun p => createdMatches e p.1)) ∧
    ((∀ d, e.data ≠ LedgerEntryData.contractData d) →
      (process_operation st ⟨[.created e]⟩ changed).1.target_pre_execution_state =
        st.target_pre_execution_state) := by
  have hunfold : process_operation st ⟨[.created e]⟩ changed =
      remove_entry st e changed := by
    simp only [process_operation, process_changes]
  rw [hunfold, remove_entry_eq]
  refine ⟨rfl, ?_, rfl, ?_⟩
  · intro p hp
    have := (List.mem_filter.mp hp).2
    simpa using this
  · intro h
    refine List.filter_eq_self.mpr ?_
    intro p _
    suffices hcm : createdMatches e p.1 = false by simp [hcm]
    unfold createdMatches
    cases hq : p.1.data with
    | contractData d =>
        cases he : e.data with
        | contractData d' => exact absurd he (h d')
        | account a => rfl
        | trustline t => rfl
        | contractCode c => rfl
        | other n => rfl
    | account a => rfl
    | trustline t => rfl
    | contractCode c => rfl
    | other n => rfl

/-- Witness for C2's amended theorem: a matching ContractData entry is
removed (first conjunct), and a `Created` Account entry leaves the working
set untouched (last conjunct). -/
theorem C2_amended_created_removes_only_contract_data_witness :
    (process_operation
      { RetroshadesExecution.new with
          target_pre_execution_state :=
            [(⟨1, .contractData ⟨.contract 2, .symbol "k", .persistent, .u32 1⟩⟩,
              some 5)] }
      ⟨[.created ⟨9, .contractData ⟨.contract 2, .symbol "k", .temporary, .u32 3⟩⟩]⟩
      false).1.target_pre_execution_state = [] ∧
    (process_operation
      { RetroshadesExecution.new with
          target_pre_execution_state := [(⟨5, .account ⟨7, 100⟩⟩, none)] }
      ⟨[.created ⟨5, .account ⟨7, 100⟩⟩]⟩ false).1.target_pre_execution_state =
      [(⟨5, .account ⟨7, 100⟩⟩, none)] := by
  constructor
  · have h := (C2_amended_created_removes_only_contract_data
      { RetroshadesExecution.new with
          target_pre_execution_state :=
            [(⟨1, .contractData ⟨.contract 2, .symbol "k", .persistent, .u32 1⟩⟩,
              some 5)] }
      ⟨9, .contractData ⟨.contract 2, .symbol "k", .temporary, .u32 3⟩⟩ false).1
    rw [h]
    rfl
  · have h := (C2_amended_created_removes_only_contract_data
      { RetroshadesExecution.new with
          target_pre_execution_state := [(⟨5, .account ⟨7, 100⟩⟩, none)] }
      ⟨5, .account ⟨7, 100⟩⟩ false).2.2.2
    exact h (fun d hd => by simp at hd)

/-- C4: a change log `[PriorState(e), Updated(u)]` overwrites every
working-set entry matching `e`'s key with `e`'s full value while keeping
that entry's existing liveness horizon (not any horizon carried alongside
`e`) and leaving non-matching entries untouched, sets `changed` to `true`,
and the result is independent of the `Updated` payload `u`. -/
theorem C4_rewind_prior_state_overwrites
    (st : RetroshadesExecution) (e u : LedgerEntry) (changed : Bool)
    (i : Nat) (pair : LedgerEntry × Option Nat)
    (hi : st.target_pre_execution_state[i]? = some pair)
    (hm : updMatches e pair.1 = true) :
    ((process_operation st ⟨[.state e, .updated u]⟩
        changed).1.target_pre_execution_state[i]? = some (e, pair.2)) ∧
    (process_operation st ⟨[.state e, .updated u]⟩
        changed).1.target_pre_execution_state =
      st.target_pre_execution_state.map
        (fun p => if updMatches e p.1 then (e, p.2) else p) ∧
    (process_operation st ⟨[.state e, .updated u]⟩ changed).2 = true ∧
    (∀ u' : LedgerEntry,
      process_operation st ⟨[.state e, .updated u']⟩ changed =
        process_operation st ⟨[.state e, .updated u]⟩ changed) := by
  have hunfold : ∀ w : LedgerEntry, process_operation st ⟨[.state e, .updated w]⟩ changed =
      update_entries st e changed := by
    intro w
    simp only [process_operation, process_changes]
  refine ⟨?_, ?_, ?_, fun u' => (hunfold u').trans (hunfold u).symm⟩
  · rw [hunfold u]
    simp only [update_entries, update_entries_loop_eq]
    rw [List.getElem?_map, hi]
    simp [hm]
  · rw [hunfold u]
    simp only [update_entries, update_entries_loop_eq]
  · rw [hunfold u]
    have hmem : pair ∈ st.target_pre_execution_state := by
      obtain ⟨hlt, hget⟩ := List.getElem?_eq_some.mp hi
      exact hget ▸ List.getElem_mem hlt
    have hany : st.target_pre_execution_state.any
        (fun p => updMatches e p.1) = true :=
      List.any_eq_true.mpr ⟨pair, hmem, hm⟩
    simp [update_entries, update_entries_loop_eq, hany]

/-- Witness for C4: a concrete ContractData working set; the prior state
differs in durability, payload and sequence number but matches on
(contract, key); its full value replaces the entry, the pre-existing
horizon `some 5` is kept, and two different `Updated` payloads give the
same result. -/
theorem C4_rewind_prior_state_overwrites_witness :
    ((process_operation
      { RetroshadesExecution.new with
          target_pre_execution_state :=
            [(⟨10, .contractData ⟨.contract 1, .symbol "k", .persistent, .u32 2⟩⟩,
              some 5)] }
      ⟨[.state ⟨9, .contractData ⟨.contract 1, .symbol "k", .temporary, .u32 1⟩⟩,
        .updated ⟨3, .other 0⟩]⟩
      false).1.target_pre_execution_state[0]? =
      some (⟨9, .contractData ⟨.contract 1, .symbol "k", .temporary, .u32 1⟩⟩,
        some 5)) := by
  have h := C4_rewind_prior_state_overwrites
    { RetroshadesExecution.new with
        target_pre_execution_state :=
          [(⟨10, .contractData ⟨.contract 1, .symbol "k", .persistent, .u32 2⟩⟩,
            some 5)] }
    ⟨9, .contractData ⟨.contract 1, .symbol "k", .temporary, .u32 1⟩⟩
    ⟨3, .other 0⟩ false 0
    (⟨10, .contractData ⟨.contract 1, .symbol "k", .persistent, .u32 2⟩⟩, some 5)
    rfl rfl
  exact h.1

/-- If no working-set ContractData entry is account-addressed, the first
pass succeeds, and the collected map holds a hash exactly when some entry
references it (or the accumulator already held it). -/
theorem collect_mutations_spec (mercury_contracts : Hash → Option (List Nat)) :
    ∀ (ws : List (LedgerEntry × Option Nat)) (acc : Hash → Option (List Nat)),
    (∀ p ∈ ws, ∃ r, entry_mutation mercury_contracts p = .ok r) →
    ∃ bm, collect_mutations mercury_contracts ws acc = .ok bm ∧
      ∀ h, (bm h).isSome = (referencedHash mercury_contracts ws h || (acc h).isSome)
  | [], acc, _ => ⟨acc, rfl, by simp [referencedHash]⟩
  | p :: rest, acc, hok => by
      obtain ⟨r, hr⟩ := hok p (by simp)
      have hrest : ∀ q ∈ rest, ∃ r, entry_mutation mercury_contracts q = .ok r :=
        fun q hq => hok q (by simp [hq])
      cases r with
      | none =>
          obtain ⟨bm, hcol, hiso⟩ := collect_mutations_spec mercury_contracts rest acc hrest
          refine ⟨bm, ?_, ?_⟩
          · simp only [collect_mutations, hr]
            exact hcol
          · intro h
            simp [referencedHash, hr] at hiso ⊢
            exact hiso h
      | some wcode =>
          obtain ⟨wasm, new_code⟩ := wcode
          obtain ⟨bm, hcol, hiso⟩ := collect_mutations_spec mercury_contracts rest
            (insertMutation acc wasm new_code) hrest
          refine ⟨bm, ?_, ?_⟩
          · simp only [collect_mutations, hr]
            exact hcol
          · intro h
            rw [hiso h]
            simp only [referencedHash, List.any_cons, hr, insertMutation]
            by_cases hw : h = wasm
            · subst hw
              simp
            · have : (wasm == h) = false := by
                simp only [beq_eq_false_iff_ne, ne_eq]
                exact fun hc => hw hc.symm
              simp [hw, this]

/-- The second pass of `replace_binaries` rewrites exactly the ContractCode
entries whose hash is in the mutation map, and reports whether any entry
was rewritten. -/
theorem apply_mutations_spec (binaries_mutation : Hash → Option (List Nat)) :
    ∀ (ws : List (LedgerEntry × Option Nat)) (replaced : Bool),
    apply_mutations binaries_mutation ws replaced =
      (ws.map (fun p =>
        match p.1.data with
        | .contractCode c =>
            (match binaries_mutation c.hash with
            | some b =>
                ({ p.1 with data := LedgerEntryData.contractCode { c with code := b } }, p.2)
            | none => p)
        | _ => p),
       replaced || ws.any (fun p =>
        match p.1.data with
        | .contractCode c => (binaries_mutation c.hash).isSome
        | _ => false))
  | [], replaced => by simp [apply_mutations]
  | p :: rest, replaced => by
      cases hd : p.1.data with
      | contractCode c =>
          cases hm : binaries_mutation c.hash with
          | some b =>
              simp [apply_mutations, hd, hm,
                apply_mutations_spec binaries_mutation rest true]
          | none =>
              simp [apply_mutations, hd, hm,
                apply_mutations_spec binaries_mutation rest replaced]
      | account a =>
          simp [apply_mutations, hd, apply_mutations_spec binaries_mutation rest replaced]
      | trustline t =>
          simp [apply_mutations, hd, apply_mutations_spec binaries_mutation rest replaced]
      | contractData d =>
          simp [apply_mutations, hd, apply_mutations_spec binaries_mutation rest replaced]
      | other n =>
          simp [apply_mutations, hd, apply_mutations_spec binaries_mutation rest replaced]

/-- C10 counterexample: a working set containing a ContractData entry whose
owner address is an account address makes `replace_binaries` fail with
`MalformedXdr` — even with an empty substitution map — instead of
returning `false` with the working set unchanged as the claim requires for
every working set without matching ContractCode entries. -/
theorem C10_counterexample_account_addressed_data :
    replace_binaries
      { RetroshadesExecution.new with
          target_pre_execution_state :=
            [(⟨0, .contractData ⟨.account 3, .void, .persistent, .void⟩⟩, none)] }
      (fun _ => none) =
      ({ RetroshadesExecution.new with
          target_pre_execution_state :=
            [(⟨0, .contractData ⟨.account 3, .void, .persistent, .void⟩⟩, none)] },
       .error .MalformedXdr) ∧
    (¬ ∃ b, (replace_binaries
      { RetroshadesExecution.new with
          target_pre_execution_state :=
            [(⟨0, .contractData ⟨.account 3, .void, .persistent, .void⟩⟩, none)] }
      (fun _ => none)).2 = .ok b) := by
  refine ⟨rfl, ?_⟩
  rintro ⟨b, hb⟩
  simp only [replace_binaries, collect_mutations, entry_mutation] at hb
  exact Except.noConfusion hb

/-- C10 amended: provided every ContractData entry in the working set is
contract-addressed (otherwise `replace_binaries` fails with `MalformedXdr`
and touches nothing), `replace_binaries` reports `true` and overwrites the
code bytes of exactly the ContractCode entries whose hash is referenced as
the executable of a contract-instance record of a substituted contract;
when no ContractCode entry's hash is referenced it returns `false` and the
working set is unchanged. -/
theorem C10_amended_replace_binaries
    (st : RetroshadesExecution) (mercury_contracts : Hash → Option (List Nat))
    (hwf : ∀ p ∈ st.target_pre_execution_state, ∀ d,
      p.1.data = LedgerEntryData.contractData d →
      ∃ ch, d.contract = ScAddress.contract ch) :
    ∃ bm, collect_mutations mercury_contracts st.target_pre_execution_state
        (fun _ => none) = .ok bm ∧
      (∀ h, (bm h).isSome =
        referencedHash mercury_contracts st.target_pre_execution_state h) ∧
      (replace_binaries st mercury_contracts).2 =
        .ok (st.target_pre_execution_state.any (fun p =>
          match p.1.data with
          | .contractCode c =>
              referencedHash mercury_contracts st.target_pre_execution_state c.hash
          | _ => false)) ∧
      (replace_binaries st mercury_contracts).1.target_pre_execution_state =
        st.target_pre_execution_state.map (fun p =>
          match p.1.data with
          | .contractCode c =>
              (match bm c.hash with
              | some b =>
                  ({ p.1 with data :=
                      LedgerEntryData.contractCode { c with code := b } }, p.2)
              | none => p)
          | _ => p) ∧
      ((∀ p ∈ st.target_pre_execution_state,
          (match p.1.data with
          | .contractCode c =>
              referencedHash mercury_contracts st.target_pre_execution_state c.hash
          | _ => false) = false) →
        replace_binaries st mercury_contracts = (st, .ok false)) := by
  have hok : ∀ p ∈ st.target_pre_execution_state,
      ∃ r, entry_mutation mercury_contracts p = .ok r := by
    intro p hp
    cases hd : p.1.data with
    | contractData d =>
        obtain ⟨ch, hch⟩ := hwf p hp d hd
        simp only [entry_mutation, hd, hch]
        cases mercury_contracts ch with
        | some new_code =>
            cases hk : d.key <;>
              first
              | exact ⟨_, rfl⟩
              | (cases hv : d.val <;>
                  first
                  | exact ⟨_, rfl⟩
                  | (rename_i e s
                     cases e <;> exact ⟨_, rfl⟩))
        | none => exact ⟨_, rfl⟩
    | account a => simp only [entry_mutation, hd]; exact ⟨_, rfl⟩
    | trustline t => simp only [entry_mutation, hd]; exact ⟨_, rfl⟩
    | contractCode c => simp only [entry_mutation, hd]; exact ⟨_, rfl⟩
    | other n => simp only [entry_mutation, hd]; exact ⟨_, rfl⟩
  obtain ⟨bm, hcol, hiso⟩ := collect_mutations_spec mercury_contracts
    st.target_pre_execution_state (fun _ => none) hok
  have hiso' : ∀ h, (bm h).isSome =
      referencedHash mercury_contracts st.target_pre_execution_state h := by
    intro h
    rw [hiso h]
    simp
  have hrepl : replace_binaries st mercury_contracts =
      ({ st with target_pre_execution_state :=
          (apply_mutations bm st.target_pre_execution_state false).1 },
       .ok (apply_mutations bm st.target_pre_execution_state false).2) := by
    simp only [replace_binaries, hcol]
  have happ := apply_mutations_spec bm st.target_pre_execution_state false
  have hany : st.target_pre_execution_state.any (fun p =>
      match p.1.data with
      | .contractCode c => (bm c.hash).isSome
      | _ => false) =
      st.target_pre_execution_state.any (fun p =>
      match p.1.data with
      | .contractCode c =>
          referencedHash mercury_contracts st.target_pre_execution_state c.hash
      | _ => false) := by
    refine list_any_congr _ _ _ ?_
    intro p _
    cases hd : p.1.data <;> simp [hd, hiso']
  refine ⟨bm, hcol, hiso', ?_, ?_, ?_⟩
  · rw [hrepl]
    simp only [happ]
    rw [← hany]
    simp [happ]
  · rw [hrepl]
    simp only [happ]
  · intro hnone
    have hpt : ∀ p ∈ st.target_pre_execution_state,
        (fun (p : LedgerEntry × Option Nat) =>
          match p.1.data with
          | .contractCode c =>
              (match bm c.hash with
              | some b =>
                  ({ p.1 with data :=
                      LedgerEntryData.contractCode { c with code := b } }, p.2)
              | none => p)
          | _ => p) p = p := by
      intro p hp
      have hrf := hnone p hp
      cases hd : p.1.data with
      | contractCode c =>
          simp only [hd] at hrf
          have hb : bm c.hash = none := by
            have hs := hiso' c.hash
            rw [hrf] at hs
            exact Option.not_isSome_iff_eq_none.mp (by simp [hs])
          simp [hd, hb]
      | account a => simp [hd]
      | trustline t => simp [hd]
      | contractData d => simp [hd]
      | other n => simp [hd]
    have hanyfalse : st.target_pre_execution_state.any (fun p =>
        match p.1.data with
        | .contractCode c => (bm c.hash).isSome
        | _ => false) = false := by
      rw [hany]
      rw [List.any_eq_false]
      intro p hp
      simp [hnone p hp]
    rw [hrepl]
    simp only [happ, hanyfalse, Bool.or_false]
    rw [List.map_congr_left hpt]
    simp

/-- Witness for C10's amended theorem: the substitution scenario — a
contract-addressed instance record referencing wasm hash 7, which the map
substitutes; `replace_binaries` returns `true` and rewrites the ContractCode
entry's bytes. -/
theorem C10_amended_replace_binaries_witness :
    (replace_binaries
      { RetroshadesExecution.new with
          target_pre_execution_state :=
            [(⟨1, .contractData ⟨.contract 1, .ledgerKeyContractInstance,
                .persistent, .contractInstance (some 7) none⟩⟩, some 50),
             (⟨2, .contractCode ⟨7, [0, 1]⟩⟩, some 60)] }
      (fun h => if h = 1 then some [9, 9] else none)).2 = .ok true ∧
    (replace_binaries
      { RetroshadesExecution.new with
          target_pre_execution_state :=
            [(⟨1, .contractData ⟨.contract 1, .ledgerKeyContractInstance,
                .persistent, .contractInstance (some 7) none⟩⟩, some 50),
             (⟨2, .contractCode ⟨7, [0, 1]⟩⟩, some 60)] }
      (fun h => if h = 1 then some [9, 9] else none)).1.target_pre_execution_state =
      [(⟨1, .contractData ⟨.contract 1, .ledgerKeyContractInstance,
          .persistent, .contractInstance (some 7) none⟩⟩, some 50),
       (⟨2, .contractCode ⟨7, [9, 9]⟩⟩, some 60)] := by
  obtain ⟨bm, hcol, hiso, hrep, hmap, hunch⟩ := C10_amended_replace_binaries
    { RetroshadesExecution.new with
        target_pre_execution_state :=
          [(⟨1, .contractData ⟨.contract 1, .ledgerKeyContractInstance,
              .persistent, .contractInstance (some 7) none⟩⟩, some 50),
           (⟨2, .contractCode ⟨7, [0, 1]⟩⟩, some 60)] }
    (fun h => if h = 1 then some [9, 9] else none)
    (by
      intro p hp d hd
      fin_cases hp
      · cases hd
        exact ⟨1, rfl⟩
      · exact absurd hd (by simp))
  have hbm : bm = insertMutation (fun _ => none) 7 [9, 9] :=
    Except.ok.inj (hcol.symm.trans rfl)
  constructor
  · rw [hrep]
    rfl
  · rw [hmap, hbm]
    rfl

/-- C6 counterexample: an export record whose payload is a map keyed by a
text (string) value — the claim says it must pack successfully, but
`retroshade_packed` only accepts symbol keys and fails with
`MalformedRetroshadeEvent`. -/
theorem C6_counterexample_text_key_rejected :
    retroshade_packed
      ⟨fun _ => "V", fun _ => "M", fun _ => "E", fun _ => "H",
       fun _ => "A", fun _ => "C"⟩
      [⟨1, .symbol "t", .map (some [(.str "k", .bool true)])⟩] =
      .error .MalformedRetroshadeEvent := rfl

/-- The key/value packing loop succeeds exactly when every key is a
symbol; a non-symbol key makes it fail with `MalformedRetroshadeEvent`. -/
theorem pack_event_entries_spec (ser : Ser) :
    ∀ m : List (ScVal × ScVal),
    (m.all (fun kv => match kv.1 with | ScVal.symbol _ => true | _ => false) = true →
      ∃ es, pack_event_entries ser m = .ok es) ∧
    (m.all (fun kv => match kv.1 with | ScVal.symbol _ => true | _ => false) = false →
      pack_event_entries ser m = .error .MalformedRetroshadeEvent)
  | [] => ⟨fun _ => ⟨[], rfl⟩, fun h => by simp at h⟩
  | (k, v) :: rest => by
      cases k
      case symbol s =>
          (constructor
           · intro h
             have h2 : rest.all (fun kv =>
                 match kv.1 with | ScVal.symbol _ => true | _ => false) = true := by
               simp only [List.all_cons, Bool.and_eq_true] at h
               exact h.2
             obtain ⟨es, hes⟩ := (pack_event_entries_spec ser rest).1 h2
             refine ⟨{ name := s, value := scValInto ser v } :: es, ?_⟩
             simp only [pack_event_entries, hes, Except.map]
           · intro h
             have h2 : rest.all (fun kv =>
                 match kv.1 with | ScVal.symbol _ => true | _ => false) = false := by
               cases hra : rest.all (fun kv =>
                   match kv.1 with | ScVal.symbol _ => true | _ => false) with
               | false => rfl
               | true =>
                   rw [List.all_cons, hra] at h
                   simp at h
             have hrest := (pack_event_entries_spec ser rest).2 h2
             simp only [pack_event_entries, hrest, Except.map])
      all_goals exact ⟨fun h => by simp at h, fun _ => by simp [pack_event_entries]⟩

/-- One export record packs successfully exactly when it is well-formed in
the symbol-keyed sense; otherwise `MalformedRetroshadeEvent`. -/
theorem pack_record_spec (ser : Ser) (r : RetroshadeExport) :
    (exportWellFormed r = true → ∃ p, pack_record ser r = .ok p) ∧
    (exportWellFormed r = false → pack_record ser r = .error .MalformedRetroshadeEvent) := by
  obtain ⟨cid, target, event_object⟩ := r
  constructor
  · intro h
    simp only [exportWellFormed] at h
    rw [Bool.and_eq_true] at h
    obtain ⟨hkeys, htarget⟩ := h
    cases event_object
    case map om =>
        cases om
        case some m =>
            obtain ⟨es, hes⟩ := (pack_event_entries_spec ser m).1 hkeys
            cases target
            case symbol s =>
                exact ⟨{ contract_id := ser.contractStr cid, target := s,
                         event := es }, by simp only [pack_record, hes]⟩
            all_goals simp at htarget
        case none => simp at hkeys
    all_goals simp at hkeys
  · intro h
    cases event_object
    case map om =>
        cases om
        case some m =>
            cases hall : m.all
                (fun kv => match kv.1 with | ScVal.symbol _ => true | _ => false) with
            | false =>
                have herr := (pack_event_entries_spec ser m).2 hall
                simp [pack_record, herr]
            | true =>
                obtain ⟨es, hes⟩ := (pack_event_entries_spec ser m).1 hall
                simp only [exportWellFormed, hall, Bool.true_and] at h
                cases target
                case symbol s => simp at h
                all_goals simp only [pack_record, hes]
        case none => simp [pack_record]
    all_goals simp [pack_record]

/-- C6 amended: the packed replay fails — always with
`MalformedRetroshadeEvent` — if and only if some export record's payload is
not a present map (`Map(Some _)`), some payload map key is not a *symbol*,
or some record's target is not a *symbol*.  In particular a record whose
payload map is keyed entirely by symbols (not merely text-or-symbol) with a
symbol target is packed successfully; a text (string) key or target is
rejected. -/
theorem C6_amended_packed_requires_symbol_keys (ser : Ser) :
    ∀ rs : List RetroshadeExport,
    (rs.all exportWellFormed = true →
      ∃ out, retroshade_packed ser rs = .ok out) ∧
    (rs.all exportWellFormed = false →
      retroshade_packed ser rs = .error .MalformedRetroshadeEvent)
  | [] => ⟨fun _ => ⟨[], rfl⟩, fun h => by simp at h⟩
  | r :: rest => by
      constructor
      · intro h
        simp only [List.all_cons, Bool.and_eq_true] at h
        obtain ⟨p, hp⟩ := (pack_record_spec ser r).1 h.1
        obtain ⟨out, hout⟩ := (C6_amended_packed_requires_symbol_keys ser rest).1 h.2
        refine ⟨p :: out, ?_⟩
        simp only [retroshade_packed, hp, hout, Except.map]
      · intro h
        cases hwf : exportWellFormed r with
        | false =>
            have herr := (pack_record_spec ser r).2 hwf
            simp [retroshade_packed, herr]
        | true =>
            have hrest : rest.all exportWellFormed = false := by
              rw [List.all_cons, hwf] at h
              simpa using h
            obtain ⟨p, hp⟩ := (pack_record_spec ser r).1 hwf
            have hresterr :=
              (C6_amended_packed_requires_symbol_keys ser rest).2 hrest
            simp [retroshade_packed, hp, hresterr, Except.map]

/-- Witness for C6's amended theorem: a symbol-keyed, symbol-targeted record
packs successfully, and the counterexample's text-keyed record is rejected. -/
theorem C6_amended_packed_requires_symbol_keys_witness :
    (∃ out, retroshade_packed
      ⟨fun _ => "V", fun _ => "M", fun _ => "E", fun _ => "H",
       fun _ => "A", fun _ => "C"⟩
      [⟨1, .symbol "t", .map (some [(.symbol "k", .bool true)])⟩] = .ok out) ∧
    retroshade_packed
      ⟨fun _ => "V", fun _ => "M", fun _ => "E", fun _ => "H",
       fun _ => "A", fun _ => "C"⟩
      [⟨1, .str "t", .map (some [(.symbol "k", .bool true)])⟩] =
      .error .MalformedRetroshadeEvent := by
  constructor
  · exact (C6_amended_packed_requires_symbol_keys
      ⟨fun _ => "V", fun _ => "M", fun _ => "E", fun _ => "H",
       fun _ => "A", fun _ => "C"⟩
      [⟨1, .symbol "t", .map (some [(.symbol "k", .bool true)])⟩]).1 rfl
  · exact (C6_amended_packed_requires_symbol_keys
      ⟨fun _ => "V", fun _ => "M", fun _ => "E", fun _ => "H",
       fun _ => "A", fun _ => "C"⟩
      [⟨1, .str "t", .map (some [(.symbol "k", .bool true)])⟩]).2 rfl

/- Totality of the conversion pipeline: `from_scval` always produces a
value; in particular the `panic!()` inside `num_to_string` (modelled as
`none`) never surfaces. -/
mutual

theorem from_scval_isSome (ser : Ser) : ∀ (v : ScVal) (d : Nat),
    (from_scval ser v d).isSome = true
  | .bool b, d => rfl
  | .void, d => rfl
  | .error e, d => rfl
  | .u32 n, d => rfl
  | .i32 n, d => rfl
  | .u64 n, d => rfl
  | .i64 n, d => rfl
  | .timepoint n, d => rfl
  | .duration n, d => rfl
  | .u128 a b, d => rfl
  | .i128 a b, d => rfl
  | .u256 a b c e, d => rfl
  | .i256 a b c e, d => rfl
  | .bytes b, d => rfl
  | .str s, d => rfl
  | .symbol s, d => rfl
  | .vec none, d => by
      simp only [from_scval]
      split
      · rfl
      · rfl
  | .vec (some l), d => by
      have hl := from_scval_list_isSome ser l (d + 1)
      obtain ⟨⟨inner, d2⟩, hr⟩ := Option.isSome_iff_exists.mp hl
      simp only [from_scval, hr]
      split
      · split
        · split
          · split
            · rfl
            · rfl
          · rfl
        · rfl
      · rfl
  | .map m, d => rfl
  | .address a, d => rfl
  | .contractInstance e s, d => rfl
  | .ledgerKeyContractInstance, d => rfl
  | .ledgerKeyNonce n, d => rfl

theorem from_scval_list_isSome (ser : Ser) : ∀ (l : List ScVal) (d : Nat),
    (from_scval_list ser l d).isSome = true
  | [], d => rfl
  | x :: xs, d => by
      have hx := from_scval_isSome ser x d
      obtain ⟨⟨fx, d1⟩, hfx⟩ := Option.isSome_iff_exists.mp hx
      have hxs := from_scval_list_isSome ser xs d1
      obtain ⟨⟨rest, d2⟩, hrest⟩ := Option.isSome_iff_exists.mp hxs
      simp [from_scval_list, hfx, hrest]

end

/-- C7: the conversion is total over the entire dynamic value variant space
— for every input value and recursion budget it returns a converted value
and never errors or panics; the partial (panicking) numeric-string helper
accepts exactly the 128/256-bit integer variants; and every variant hitting
the catch-all arm (contract instances and ledger-key values) yields db type
TEXT with kind `Text("Invalid")`. -/
theorem C7_conversion_total (ser : Ser) (v : ScVal) (d : Nat)
    (e : Option Hash) (s : Option (List (ScVal × ScVal))) (n : Int) :
    (from_scval ser v d).isSome = true ∧
    from_scval ser (.contractInstance e s) d =
      some (.mk .TEXT (.text "Invalid"), d) ∧
    from_scval ser .ledgerKeyContractInstance d =
      some (.mk .TEXT (.text "Invalid"), d) ∧
    from_scval ser (.ledgerKeyNonce n) d =
      some (.mk .TEXT (.text "Invalid"), d) ∧
    (match v with
     | .i128 _ _ | .u128 _ _ | .i256 _ _ _ _ | .u256 _ _ _ _ =>
         (num_to_string v).isSome = true
     | _ => num_to_string v = none) := by
  refine ⟨from_scval_isSome ser v d, rfl, rfl, rfl, ?_⟩
  cases v <;> rfl

/-- Converting a list of vectors with the (shared, mutable) recursion depth
already at 1 or above: every element's own increment exhausts the budget,
so each converts to the JSON serialization of itself, and the depth counter
ends up incremented once per element. -/
theorem from_scval_list_of_vecs (ser : Ser) :
    ∀ (ovs : List (Option (List ScVal))) (d : Nat), 1 ≤ d →
    from_scval_list ser (ovs.map ScVal.vec) d =
      some (ovs.map (fun ov => .mk .JSON (.text (ser.vecJson ov))),
        d + ovs.length)
  | [], d, _ => by simp [from_scval_list]
  | ov :: rest, d, hd => by
      have hvec : from_scval ser (.vec ov) d =
          some (.mk .JSON (.text (ser.vecJson ov)), d + 1) := by
        have hbudget : ¬ (d + 1 ≤ MAX_ALLOWED_RECURSION_DEPTH) := by
          simp only [MAX_ALLOWED_RECURSION_DEPTH]
          omega
        cases ov with
        | none =>
            simp only [from_scval]
            rw [if_neg hbudget]
        | some l =>
            simp only [from_scval]
            rw [if_neg hbudget]
      simp only [List.map_cons, from_scval_list, hvec,
        from_scval_list_of_vecs ser rest (d + 1) (by omega)]
      have hlen : d + 1 + rest.length = d + (rest.length + 1) := by omega
      simp [hlen]

/-- C1 counterexample: the depth-2 vector `[[u32 1]]` (with a concrete JSON
serializer returning `"J"`) converts to a `TEXT_ARRAY` homogeneous array of
the inner vectors' Text(JSON) conversions — not to a Text kind with db type
JSON as the claim states. -/
theorem C1_counterexample_nested_vector_promoted :
    from_scval
      ⟨fun _ => "J", fun _ => "J", fun _ => "J", fun _ => "J",
       fun _ => "J", fun _ => "J"⟩
      (.vec (some [.vec (some [.u32 1])])) 0 =
      some (.mk .TEXT_ARRAY (.genericArray [.mk .JSON (.text "J")]), 2) ∧
    PgType.TEXT_ARRAY ≠ PgType.JSON := by
  exact ⟨rfl, by decide⟩

/-- C1 amended: a nonempty vector of vectors converts at depth 0 to a
`TEXT_ARRAY` homogeneous array whose elements are the Text values holding
the JSON serialization of each inner vector (each inner element has db type
JSON and kind Text, and kind Text *does* qualify for text-array promotion,
so the JSON-typed elements are promoted rather than falling through to a
JSON serialization of the outer vector). -/
theorem C1_amended_nested_vectors_promote_to_text_array (ser : Ser)
    (ovs : List (Option (List ScVal))) (h : ovs ≠ []) :
    from_scval ser (.vec (some (ovs.map ScVal.vec))) 0 =
      some (.mk .TEXT_ARRAY (.genericArray
        (ovs.map (fun ov => .mk .JSON (.text (ser.vecJson ov))))),
        1 + ovs.length) := by
  obtain ⟨ov0, rest, rfl⟩ := List.exists_cons_of_ne_nil h
  simp only [from_scval]
  rw [if_pos (by simp [MAX_ALLOWED_RECURSION_DEPTH])]
  rw [from_scval_list_of_vecs ser (ov0 :: rest) 1 (le_refl 1)]
  simp [FromScVal.dbtype, FromScVal.kind]

/-- Witness for C1's amended theorem at the counterexample input. -/
theorem C1_amended_nested_vectors_promote_to_text_array_witness :
    from_scval
      ⟨fun _ => "J", fun _ => "J", fun _ => "J", fun _ => "J",
       fun _ => "J", fun _ => "J"⟩
      (.vec (some [.vec (some [.u32 1])])) 0 =
      some (.mk .TEXT_ARRAY (.genericArray [.mk .JSON (.text "J")]), 2) := by
  have h := C1_amended_nested_vectors_promote_to_text_array
    ⟨fun _ => "J", fun _ => "J", fun _ => "J", fun _ => "J",
     fun _ => "J", fun _ => "J"⟩
    [some [.u32 1]] (by simp)
  exact h

/-- Below a mask of `k` ones, subtracting from the mask complements the
bits. -/
theorem testBit_mask_sub :
    ∀ (k : Nat) (b : Nat), b < 2 ^ k → ∀ i, i < k →
    Nat.testBit (2 ^ k - 1 - b) i = !Nat.testBit b i
  | 0, b, _, i, hi => by omega
  | k + 1, b, hb, i, hi => by
      have hP : 0 < 2 ^ k := Nat.two_pow_pos k
      have h2 : 2 ^ (k + 1) = 2 * 2 ^ k := by ring
      cases i with
      | zero =>
          rw [Nat.testBit_zero, Nat.testBit_zero]
          have : (2 ^ (k + 1) - 1 - b) % 2 = 1 - b % 2 := by
            rw [h2] at hb ⊢
            omega
          rw [this]
          rcases Nat.mod_two_eq_zero_or_one b with hm | hm <;> simp [hm]
      | succ i =>
          rw [Nat.testBit_add_one, Nat.testBit_add_one]
          have hdiv : (2 ^ (k + 1) - 1 - b) / 2 = 2 ^ k - 1 - b / 2 := by
            rw [h2] at hb ⊢
            omega
          rw [hdiv]
          exact testBit_mask_sub k (b / 2) (by rw [h2] at hb; omega) i (by omega)

/-- The `ldiff` with a low-bits mask of ones subtracts the (bit-subset)
operand. -/
theorem ldiff_mask (k m b : Nat) (hb : b < 2 ^ k) :
    Nat.ldiff (2 ^ k * m + (2 ^ k - 1)) b = 2 ^ k * m + ((2 ^ k - 1) - b) := by
  have hmask : 2 ^ k - 1 < 2 ^ k := by
    have := Nat.two_pow_pos k
    omega
  have hmaskb : (2 ^ k - 1) - b < 2 ^ k := by omega
  apply Nat.eq_of_testBit_eq
  intro i
  rw [Nat.testBit_ldiff, Nat.testBit_mul_pow_two_add m hmask i,
    Nat.testBit_mul_pow_two_add m hmaskb i]
  by_cases hik : i < k
  · rw [if_pos hik, if_pos hik, Nat.testBit_two_pow_sub_one,
      testBit_mask_sub k b hb i hik]
    simp [hik]
  · rw [if_neg hik, if_neg hik]
    have hbi : Nat.testBit b i = false := by
      apply Nat.testBit_lt_two_pow
      calc b < 2 ^ k := hb
        _ ≤ 2 ^ i := Nat.pow_le_pow_right (by omega) (by omega)
    simp [hbi]

/-- The num-bigint shift-then-or composition of limbs is positional: for
`0 ≤ b < 2^k`, `(a << k) | b = a * 2^k + b`, for any (possibly negative)
high limb `a`. -/
theorem int_shl_lor (a : Int) (b k : Nat) (hb : b < 2 ^ k) :
    Int.lor (a <<< ((k : Nat) : Int)) (b : Int) = a * 2 ^ k + b := by
  rw [Int.shiftLeft_eq_mul_pow]
  cases a with
  | ofNat m =>
      simp only [Int.ofNat_eq_natCast]
      have h1 : ((m : Int)) * ((2 ^ k : Nat) : Int) = ((m * 2 ^ k : Nat) : Int) := by
        push_cast
        ring
      rw [h1]
      have h2 : Int.lor ((m * 2 ^ k : Nat) : Int) ((b : Nat) : Int) =
          (((m * 2 ^ k) ||| b : Nat) : Int) := rfl
      have h3 : (m * 2 ^ k) ||| b = m * 2 ^ k + b := by
        rw [Nat.mul_comm m (2 ^ k)]
        exact (Nat.mul_add_lt_is_or hb m).symm
      rw [h2, h3]
      push_cast
      ring
  | negSucc m =>
      have hpos : 1 ≤ 2 ^ k := Nat.one_le_two_pow
      have h1 : (Int.negSucc m) * ((2 ^ k : Nat) : Int) =
          Int.negSucc (2 ^ k * m + (2 ^ k - 1)) := by
        rw [Int.negSucc_eq, Int.negSucc_eq]
        have hcast : ((2 ^ k * m + (2 ^ k - 1) : Nat) : Int) =
            2 ^ k * m + (2 ^ k - 1) := by
          push_cast [hpos]
          ring
        rw [hcast]
        push_cast
        ring
      rw [h1]
      have h2 : Int.lor (Int.negSucc (2 ^ k * m + (2 ^ k - 1))) ((b : Nat) : Int) =
          Int.negSucc (Nat.ldiff (2 ^ k * m + (2 ^ k - 1)) b) := rfl
      rw [h2, ldiff_mask k m b hb, Int.negSucc_eq, Int.negSucc_eq]
      have hble : b ≤ 2 ^ k - 1 := by omega
      have hcast : ((2 ^ k * m + ((2 ^ k - 1) - b) : Nat) : Int) =
          2 ^ k * m + ((2 ^ k - 1) - b) := by
        push_cast [hpos, hble]
        ring
      rw [hcast]
      ring

/-- The `i128_to_bigint` composes the limbs positionally. -/
theorem i128_to_bigint_eq (hi : Int) (lo : Nat) (hlo : lo < 2 ^ 64) :
    i128_to_bigint hi lo = hi * 2 ^ 64 + lo := by
  have h64 : (64 : Int) = ((64 : Nat) : Int) := by norm_num
  rw [i128_to_bigint, h64, int_shl_lor hi lo 64 hlo]

/-- The `u128_to_bigint` composes the limbs positionally. -/
theorem u128_to_bigint_eq (hi lo : Nat) (hlo : lo < 2 ^ 64) :
    u128_to_bigint hi lo = (hi : Int) * 2 ^ 64 + lo := by
  have h64 : (64 : Int) = ((64 : Nat) : Int) := by norm_num
  rw [u128_to_bigint, h64, int_shl_lor (hi : Int) lo 64 hlo]

/-- The `i256_to_bigint` composes the four limbs positionally. -/
theorem i256_to_bigint_eq (hihi : Int) (hilo lohi lolo : Nat)
    (hhilo : hilo < 2 ^ 64) (hlohi : lohi < 2 ^ 64) (hlolo : lolo < 2 ^ 64) :
    i256_to_bigint hihi hilo lohi lolo =
      (hihi * 2 ^ 64 + hilo) * 2 ^ 128 + ((lohi : Int) * 2 ^ 64 + lolo) := by
  have h64 : (64 : Int) = ((64 : Nat) : Int) := by norm_num
  have h128 : (128 : Int) = ((128 : Nat) : Int) := by norm_num
  have hlo : Int.lor ((lohi : Int) <<< (64 : Int)) (lolo : Int) =
      (((lohi * 2 ^ 64 + lolo : Nat)) : Int) := by
    rw [h64, int_shl_lor (lohi : Int) lolo 64 hlolo]
    push_cast
    ring
  have hlobound : lohi * 2 ^ 64 + lolo < 2 ^ 128 := by
    have h1 : lohi * 2 ^ 64 ≤ (2 ^ 64 - 1) * 2 ^ 64 :=
      Nat.mul_le_mul_right _ (by omega)
    have h2 : (2 ^ 64 - 1) * 2 ^ 64 + 2 ^ 64 = 2 ^ 128 := by norm_num
    omega
  rw [i256_to_bigint, hlo, h64, int_shl_lor hihi hilo 64 hhilo, h128,
    int_shl_lor _ _ 128 hlobound]
  push_cast
  ring

/-- The `u256_to_bigint` composes the four limbs positionally. -/
theorem u256_to_bigint_eq (hihi hilo lohi lolo : Nat)
    (hhilo : hilo < 2 ^ 64) (hlohi : lohi < 2 ^ 64) (hlolo : lolo < 2 ^ 64) :
    u256_to_bigint hihi hilo lohi lolo =
      ((hihi : Int) * 2 ^ 64 + hilo) * 2 ^ 128 + ((lohi : Int) * 2 ^ 64 + lolo) := by
  have h64 : (64 : Int) = ((64 : Nat) : Int) := by norm_num
  have h128 : (128 : Int) = ((128 : Nat) : Int) := by norm_num
  have hlo : Int.lor ((lohi : Int) <<< (64 : Int)) (lolo : Int) =
      (((lohi * 2 ^ 64 + lolo : Nat)) : Int) := by
    rw [h64, int_shl_lor (lohi : Int) lolo 64 hlolo]
    push_cast
    ring
  have hlobound : lohi * 2 ^ 64 + lolo < 2 ^ 128 := by
    have h1 : lohi * 2 ^ 64 ≤ (2 ^ 64 - 1) * 2 ^ 64 :=
      Nat.mul_le_mul_right _ (by omega)
    have h2 : (2 ^ 64 - 1) * 2 ^ 64 + 2 ^ 64 = 2 ^ 128 := by norm_num
    omega
  rw [u256_to_bigint, hlo, h64, int_shl_lor (hihi : Int) hilo 64 hhilo, h128,
    int_shl_lor _ _ 128 hlobound]
  push_cast
  ring

/-- The `digitChar` never produces a sign character. -/
theorem digitChar_ne_dash (d : Nat) : digitChar d ≠ '-' := by
  unfold digitChar
  split <;> decide

/-- The `charDigit` inverts `digitChar` on decimal digits. -/
theorem charDigit_digitChar (d : Nat) (h : d < 10) :
    charDigit (digitChar d) = d := by
  interval_cases d <;> rfl

/-- On decimal digits, `digitChar` yields `'0'` only for the digit 0. -/
theorem digitChar_eq_zero_iff (d : Nat) (h : d < 10) :
    digitChar d = '0' ↔ d = 0 := by
  interval_cases d <;> decide

/-- The base-10 rendering of a natural number parses back losslessly,
contains no sign character, starts with a nonzero digit for nonzero input,
and renders zero as `"0"`. -/
theorem natDecString_spec (n : Nat) :
    natOfDecString (natDecString n) = n ∧
    (natDecString n).data ≠ [] ∧
    (∀ c ∈ (natDecString n).data, c ≠ '-') ∧
    (n ≠ 0 → ∀ c, (natDecString n).data.head? = some c → c ≠ '0') ∧
    (n = 0 → natDecString n = "0") := by
  by_cases h0 : n = 0
  · subst h0
    refine ⟨?_, ?_, ?_, ?_, fun _ => rfl⟩
    · show natOfDecString "0" = 0
      simp [natOfDecString, Nat.ofDigits, charDigit]
    · simp [natDecString]
    · intro c hc
      simp [natDecString] at hc
      simp [hc]
    · intro hc
      exact absurd rfl hc
  · have hne : Nat.digits 10 n ≠ [] := Nat.digits_ne_nil_iff_ne_zero.mpr h0
    have hlt : ∀ d ∈ Nat.digits 10 n, d < 10 :=
      fun d hd => Nat.digits_lt_base (by norm_num) hd
    have hdata : (natDecString n).data = ((Nat.digits 10 n).map digitChar).reverse := by
      rw [natDecString, if_neg h0]
    refine ⟨?_, ?_, ?_, ?_, fun hc => absurd hc h0⟩
    · rw [natOfDecString, hdata]
      rw [← List.map_reverse, List.reverse_reverse, List.map_map]
      have hmap : (Nat.digits 10 n).map (charDigit ∘ digitChar) = Nat.digits 10 n := by
        rw [show charDigit ∘ digitChar = fun d => charDigit (digitChar d) from rfl]
        rw [List.map_congr_left (fun d hd => charDigit_digitChar d (hlt d hd))]
        exact List.map_id _
      rw [hmap, Nat.ofDigits_digits]
    · rw [hdata]
      simp [hne]
    · intro c hc
      rw [hdata] at hc
      rw [List.mem_reverse, List.mem_map] at hc
      obtain ⟨d, _, rfl⟩ := hc
      exact digitChar_ne_dash d
    · intro _ c hc hzero
      rw [hdata, List.head?_reverse, List.getLast?_map,
        List.getLast?_eq_getLast _ hne] at hc
      simp only [Option.map_some', Option.some.injEq] at hc
      have hdd : (Nat.digits 10 n).getLast hne ∈ Nat.digits 10 n :=
        List.getLast_mem hne
      apply Nat.getLast_digit_ne_zero 10 h0
      exact (digitChar_eq_zero_iff _ (hlt _ hdd)).mp (by rw [hc]; exact hzero)

/-- The base-10 rendering of an integer parses back losslessly, starts with
`-` exactly for negative values, renders zero as `"0"`, and has no leading
zero digit (after the sign, for negative values). -/
theorem intDecString_spec (z : Int) :
    intOfDecString (intDecString z) = z ∧
    ((intDecString z).data.head? = some '-' ↔ z < 0) ∧
    (z = 0 → intDecString z = "0") ∧
    (0 < z → ∀ c, (intDecString z).data.head? = some c → c ≠ '0') ∧
    (z < 0 → ∀ c, (intDecString z).data.tail.head? = some c → c ≠ '0') := by
  by_cases hz : z < 0
  · have hne0 : z.natAbs ≠ 0 := by
      simp only [ne_eq, Int.natAbs_eq_zero]
      omega
    obtain ⟨hrt, hnn, hnd, hhead, _⟩ := natDecString_spec z.natAbs
    have hstr : intDecString z = "-" ++ natDecString z.natAbs := by
      rw [intDecString, if_pos hz]
    have hdata : (intDecString z).data = '-' :: (natDecString z.natAbs).data := by
      rw [hstr, String.data_append]
      rfl
    refine ⟨?_, ?_, ?_, ?_, ?_⟩
    · rw [intOfDecString, hdata]
      have hmk : String.mk (natDecString z.natAbs).data = natDecString z.natAbs := rfl
      simp only [reduceIte, hmk, hrt]
      omega
    · rw [hdata]
      simp [hz]
    · intro h0
      omega
    · intro hpos
      omega
    · intro _ c hc
      rw [hdata] at hc
      exact hhead hne0 c hc
  · have hz' : 0 ≤ z := by omega
    lift z to Nat using hz' with n hn
    have habs : (n : Int).natAbs = n := Int.natAbs_ofNat n
    obtain ⟨hrt, hnn, hnd, hhead, hzero⟩ := natDecString_spec n
    have hstr : intDecString (n : Int) = natDecString n := by
      rw [intDecString, if_neg hz, habs]
    obtain ⟨c, cs, hcs⟩ := List.exists_cons_of_ne_nil hnn
    have hcdash : c ≠ '-' := hnd c (by rw [hcs]; simp)
    refine ⟨?_, ?_, ?_, ?_, ?_⟩
    · rw [intOfDecString]
      simp only [hstr, hcs, if_neg hcdash]
      rw [hrt]
    · rw [hstr, hcs]
      simp only [List.head?_cons, Option.some.injEq]
      constructor
      · intro hcontra
        exact absurd hcontra hcdash
      · intro hcontra
        exact absurd hcontra hz
    · intro h0
      have hn0 : n = 0 := by omega
      rw [hstr]
      exact hzero hn0
    · intro hpos c2 hc2
      rw [hstr] at hc2
      have hn0 : n ≠ 0 := by omega
      exact hhead hn0 c2 hc2
    · intro hcontra
      exact absurd hcontra hz

/-- C8: 128/256-bit integers convert to db type NUMERIC carrying the exact
base-10 rendering of the mathematical value `(hi << w/2) | lo` composed
positionally (`hi * 2^(w/2) + lo`, signedness from the outermost signed
limb only); the rendering parses back losslessly, has a leading `-`
exactly for negative values and no leading zeros (`"0"` for zero); and the
documented example `i128{hi:0, lo:2}` renders as `Numeric("2")`. -/
theorem C8_numeric_limb_composition (ser : Ser) (d : Nat)
    (ihi : Int) (ilo : Nat) (uhi ulo : Nat)
    (shihi : Int) (shilo slohi slolo : Nat) (uhihi uhilo ulohi ulolo : Nat)
    (h1 : ilo < 2 ^ 64) (h2 : ulo < 2 ^ 64)
    (h3 : shilo < 2 ^ 64) (h4 : slohi < 2 ^ 64) (h5 : slolo < 2 ^ 64)
    (h6 : uhilo < 2 ^ 64) (h7 : ulohi < 2 ^ 64) (h8 : ulolo < 2 ^ 64) :
    from_scval ser (.i128 ihi ilo) d =
      some (.mk .NUMERIC (.numeric (intDecString (ihi * 2 ^ 64 + ilo))), d) ∧
    from_scval ser (.u128 uhi ulo) d =
      some (.mk .NUMERIC (.numeric (intDecString ((uhi : Int) * 2 ^ 64 + ulo))), d) ∧
    from_scval ser (.i256 shihi shilo slohi slolo) d =
      some (.mk .NUMERIC (.numeric (intDecString
        ((shihi * 2 ^ 64 + shilo) * 2 ^ 128 +
          ((slohi : Int) * 2 ^ 64 + slolo)))), d) ∧
    from_scval ser (.u256 uhihi uhilo ulohi ulolo) d =
      some (.mk .NUMERIC (.numeric (intDecString
        (((uhihi : Int) * 2 ^ 64 + uhilo) * 2 ^ 128 +
          ((ulohi : Int) * 2 ^ 64 + ulolo)))), d) ∧
    (∀ z : Int, intOfDecString (intDecString z) = z) ∧
    (∀ z : Int, ((intDecString z).data.head? = some '-' ↔ z < 0)) ∧
    (intDecString 0 = "0") ∧
    (∀ z : Int, 0 < z → ∀ c, (intDecString z).data.head? = some c → c ≠ '0') ∧
    (∀ z : Int, z < 0 → ∀ c, (intDecString z).data.tail.head? = some c → c ≠ '0') ∧
    from_scval ser (.i128 0 2) d = some (.mk .NUMERIC (.numeric "2"), d) := by
  refine ⟨?_, ?_, ?_, ?_,
    fun z => (intDecString_spec z).1,
    fun z => (intDecString_spec z).2.1,
    (intDecString_spec 0).2.2.1 rfl,
    fun z => (intDecString_spec z).2.2.2.1,
    fun z => (intDecString_spec z).2.2.2.2, ?_⟩
  · have hunf : from_scval ser (.i128 ihi ilo) d =
        some (FromScVal.mk .NUMERIC (.numeric (intDecString (i128_to_bigint ihi ilo))), d) := rfl
    rw [hunf, i128_to_bigint_eq ihi ilo h1]
  · have hunf : from_scval ser (.u128 uhi ulo) d =
        some (FromScVal.mk .NUMERIC (.numeric (intDecString (u128_to_bigint uhi ulo))), d) := rfl
    rw [hunf, u128_to_bigint_eq uhi ulo h2]
  · have hunf : from_scval ser (.i256 shihi shilo slohi slolo) d =
        some (FromScVal.mk .NUMERIC (.numeric (intDecString
          (i256_to_bigint shihi shilo slohi slolo))), d) := rfl
    rw [hunf, i256_to_bigint_eq shihi shilo slohi slolo h3 h4 h5]
  · have hunf : from_scval ser (.u256 uhihi uhilo ulohi ulolo) d =
        some (FromScVal.mk .NUMERIC (.numeric (intDecString
          (u256_to_bigint uhihi uhilo ulohi ulolo))), d) := rfl
    rw [hunf, u256_to_bigint_eq uhihi uhilo ulohi ulolo h6 h7 h8]
  · have hunf : from_scval ser (.i128 0 2) d =
        some (FromScVal.mk .NUMERIC (.numeric (intDecString (i128_to_bigint 0 2))), d) := rfl
    rw [hunf]
    have hv : i128_to_bigint 0 2 = 2 := by
      rw [i128_to_bigint_eq 0 2 (by norm_num)]
      norm_num
    rw [hv]
    have hs : intDecString 2 = "2" := by
      rw [intDecString, if_neg (by norm_num)]
      have : (2 : Int).natAbs = 2 := rfl
      rw [this, natDecString, if_neg (by norm_num)]
      simp
      rfl
    rw [hs]

/-- Witness for C8 at concrete limbs: a negative i128 (`hi = -1, lo = 5` is
`-2^64 + 5`), and the spec's own example `i128{hi:0, lo:2} = Numeric("2")`. -/
theorem C8_numeric_limb_composition_witness :
    from_scval
      ⟨fun _ => "J", fun _ => "J", fun _ => "J", fun _ => "J",
       fun _ => "J", fun _ => "J"⟩
      (.i128 (-1) 5) 0 =
      some (.mk .NUMERIC (.numeric (intDecString ((-1) * 2 ^ 64 + 5))), 0) ∧
    from_scval
      ⟨fun _ => "J", fun _ => "J", fun _ => "J", fun _ => "J",
       fun _ => "J", fun _ => "J"⟩
      (.i128 0 2) 0 = some (.mk .NUMERIC (.numeric "2"), 0) := by
  have h := C8_numeric_limb_composition
    ⟨fun _ => "J", fun _ => "J", fun _ => "J", fun _ => "J",
     fun _ => "J", fun _ => "J"⟩
    0 (-1) 5 0 0 0 0 0 0 0 0 0 0
    (by norm_num) (by norm_num) (by norm_num) (by norm_num)
    (by norm_num) (by norm_num) (by norm_num) (by norm_num)
  exact ⟨h.1, h.2.2.2.2.2.2.2.2.2⟩

end Retroshade
